import Mathlib

set_option maxHeartbeats 1000000
set_option maxRecDepth 4000

/- Shallow embedding of the Excel comparison tool (compare_excel_union.py; the
   helpers it shares with compare_excel_fullsheet_minimal.py are identical in
   the two files up to the noted variations).  Cell values of the data-only
   workbook are modelled as `Option XlValue` (Python `None` is `none`); style
   objects are modelled structurally; duck-typed color attribute probing is
   modelled by `PyAttr`, where an attribute access is either absent (which
   includes a property raising `AttributeError`, since `hasattr` swallows
   exactly that), has a value, or raises some other exception whose message is
   recorded.  Python floats that only ever participate in equality tests
   (e.g. font sizes) are carried as their literal string form; similarity
   scores, which are compared against the 0.72 threshold, are carried as exact
   rationals.  Cell ranges from the configuration are kept as their raw
   strings paired with the result of the external `range_boundaries` parser on
   the trimmed string (`none` when parsing fails). -/

/-- Python `str.strip()` (whitespace from both ends), written over the
character list so that it evaluates inside the kernel. -/
def pyStrip (s : String) : String :=
  String.mk (((s.toList.dropWhile Char.isWhitespace).reverse.dropWhile
    Char.isWhitespace).reverse)

/-- Python `str.lower()` (the tool only lowercases ASCII header text). -/
def pyLower (s : String) : String :=
  String.mk (s.toList.map Char.toLower)

/-- Python `str.startswith`. -/
def pyStartsWith (s t : String) : Bool :=
  t.toList.isPrefixOf s.toList

/-- Python `str.endswith`. -/
def pyEndsWith (s t : String) : Bool :=
  t.toList.isSuffixOf s.toList

/-- Python `s[n:]`. -/
def pyDrop (s : String) (n : Nat) : String :=
  String.mk (s.toList.drop n)

/-- A Python cell value as read from the data-only workbook: a string or a
number (the comparison logic only ever stringifies or type-tests values). -/
inductive XlValue where
  | str (s : String)
  | int (n : Int)
deriving DecidableEq, Repr

/-- Python `str(value)` on a cell value. -/
def pyToString : XlValue → String
  | XlValue.str s => s
  | XlValue.int n => toString n

/-- `safe_str`: `str(value) if value is not None else "None"`. -/
def safe_str : Option XlValue → String
  | none => "None"
  | some v => pyToString v

/-- Python `str()` of an optional string attribute (None prints as "None"). -/
def pyStrOptS : Option String → String
  | none => "None"
  | some s => s

/-- Python `str()` of an optional boolean attribute. -/
def pyStrOptB : Option Bool → String
  | none => "None"
  | some true => "True"
  | some false => "False"

/-- A duck-typed attribute of a Python object: absent (`hasattr` is false,
which also covers a property raising `AttributeError`), present with a value,
or raising a non-`AttributeError` exception with the given message. -/
inductive PyAttr (α : Type) where
  | absent
  | value (v : α)
  | raising (msg : String)
deriving DecidableEq, Repr

/-- Result of Python `str(obj)`: a string, or an exception message. -/
inductive TryStr where
  | val (s : String)
  | raises (msg : String)
deriving DecidableEq, Repr

/-- A style color object as probed by `normalize_color`: truthiness, the
`rgb` / `indexed` / `theme` attributes, and its `str()` form. -/
structure ColorObj where
  isFalsy : Bool
  rgb : PyAttr (Option String)
  indexed : PyAttr (Option Int)
  theme : PyAttr (Option Int)
  strRepr : TryStr
deriving DecidableEq, Repr

/-- Python truthiness of an `Option String` (None and "" are falsy). -/
def optStrTruthy : Option String → Bool
  | none => false
  | some s => !(s == "")

/-- The body of `normalize_color`'s `try` block.  `hasattr(c, a) and c.a`
checks are modelled on `PyAttr`: an `absent` attribute fails `hasattr`, a
`raising` attribute propagates (caught by the caller's `except`). -/
def normalize_color_body (color : ColorObj) : Except String String :=
  if color.isFalsy then Except.ok "None"
  else
    match color.rgb with
    | PyAttr.raising m => Except.error m
    | rgbAttr =>
      if (match rgbAttr with
          | PyAttr.value v => optStrTruthy v
          | _ => false) then
        match rgbAttr with
        | PyAttr.value v => Except.ok (pyStrOptS v)
        | _ => Except.error "unreachable"
      else
        match color.indexed with
        | PyAttr.raising m => Except.error m
        | PyAttr.value (some n) => Except.ok ("indexed:" ++ toString n)
        | _ =>
          match color.theme with
          | PyAttr.raising m => Except.error m
          | PyAttr.value (some n) => Except.ok ("theme:" ++ toString n)
          | _ =>
            match color.strRepr with
            | TryStr.val s => Except.ok s
            | TryStr.raises m => Except.error m

/-- `normalize_color`: runs the try-block and turns any exception into the
diagnostic string `"Error:<message>"`. -/
def normalize_color (color : ColorObj) : String :=
  match normalize_color_body color with
  | Except.ok s => s
  | Except.error m => "Error:" ++ m

/-- Font style snapshot (name, bold, italic, underline, size); the float size
is carried as its literal string form, compared structurally. -/
structure PyFont where
  name : Option String
  bold : Option Bool
  italic : Option Bool
  underline : Option String
  size : Option String
deriving DecidableEq, Repr

/-- Alignment style snapshot. -/
structure PyAlignment where
  horizontal : Option String
  vertical : Option String
deriving DecidableEq, Repr

/-- Fill style snapshot: only `start_color` is read by the tool. -/
structure PyFill where
  start_color : ColorObj
deriving DecidableEq, Repr

/-- Border snapshot: the four side styles probed by `find_bordered_tables`
(`None` or a style name; openpyxl style names are never the empty string, so
truthiness is `isSome`). -/
structure PyBorder where
  left : Option String
  right : Option String
  top : Option String
  bottom : Option String
deriving DecidableEq, Repr

/-- Deterministic stand-in for openpyxl's `str(border)`, used by
`compare_border`; injective on the modelled fields. -/
def border_str (b : PyBorder) : String :=
  "Border(left=" ++ pyStrOptS b.left ++ ", right=" ++ pyStrOptS b.right ++
    ", top=" ++ pyStrOptS b.top ++ ", bottom=" ++ pyStrOptS b.bottom ++ ")"

/-- The style snapshot of one cell of the format workbook. -/
structure CellFormat where
  font : PyFont
  alignment : PyAlignment
  fill : PyFill
  border : PyBorder
deriving DecidableEq, Repr

/-- One typed mismatch produced by the cell comparators. -/
structure Issue where
  type : String
  sample : String
  generated : String
deriving DecidableEq, Repr

/-- The f-string built by `compare_fonts` for one side. -/
def font_repr (f : PyFont) : String :=
  pyStrOptS f.name ++ " " ++ pyStrOptS f.size ++ " Bold:" ++ pyStrOptB f.bold ++
    " Italic:" ++ pyStrOptB f.italic ++ " Underline:" ++ pyStrOptS f.underline

/-- `compare_fonts`: one Font Mismatch issue when any of the five facets
differ. -/
def compare_fonts (f1 f2 : PyFont) : List Issue :=
  if f1.name ≠ f2.name ∨ f1.bold ≠ f2.bold ∨ f1.italic ≠ f2.italic ∨
      f1.underline ≠ f2.underline ∨ f1.size ≠ f2.size then
    [⟨"Font Mismatch", font_repr f1, font_repr f2⟩]
  else []

/-- The f-string built by `compare_alignment` for one side. -/
def alignment_repr (a : PyAlignment) : String :=
  "H:" ++ pyStrOptS a.horizontal ++ " V:" ++ pyStrOptS a.vertical

/-- `compare_alignment`: one Alignment Mismatch issue when horizontal or
vertical differ (compared through `safe_str`, i.e. structurally here). -/
def compare_alignment (a1 a2 : PyAlignment) : List Issue :=
  if pyStrOptS a1.horizontal ≠ pyStrOptS a2.horizontal ∨
      pyStrOptS a1.vertical ≠ pyStrOptS a2.vertical then
    [⟨"Alignment Mismatch", alignment_repr a1, alignment_repr a2⟩]
  else []

/-- `compare_fill`: one Fill Mismatch issue when the normalized start colors
differ. -/
def compare_fill (f1 f2 : PyFill) : List Issue :=
  if normalize_color f1.start_color ≠ normalize_color f2.start_color then
    [⟨"Fill Mismatch", "ColorCode: " ++ normalize_color f1.start_color,
      "ColorCode: " ++ normalize_color f2.start_color⟩]
  else []

/-- `compare_border`: one Border Mismatch issue when the border string forms
differ. -/
def compare_border (b1 b2 : PyBorder) : List Issue :=
  if border_str b1 ≠ border_str b2 then
    [⟨"Border Mismatch", border_str b1, border_str b2⟩]
  else []

/-- `compare_cell`: value comparison through `safe_str`, then the four style
facets; 0 to 5 issues. -/
def compare_cell (cell_sample_format cell_imr_format : CellFormat)
    (cell_sample_val cell_imr_val : Option XlValue) : List Issue :=
  (if safe_str cell_sample_val ≠ safe_str cell_imr_val then
    [⟨"Value Mismatch", safe_str cell_sample_val, safe_str cell_imr_val⟩]
  else []) ++
  compare_fonts cell_sample_format.font cell_imr_format.font ++
  compare_alignment cell_sample_format.alignment cell_imr_format.alignment ++
  compare_fill cell_sample_format.fill cell_imr_format.fill ++
  compare_border cell_sample_format.border cell_imr_format.border

/-- `is_ignored_color`: disabled when the color list is empty or its first
entry is falsy; otherwise the cell's normalized fill start color is tested
against each non-blank token by exact match, by alpha-stripped suffix match
(token starting with "FF"), and by containment of the theme:/indexed: forms. -/
def is_ignored_color (ignoredColors : List String) (cell : CellFormat) : Bool :=
  match ignoredColors with
  | [] => false
  | first :: _ =>
    if first == "" then false
    else
      let cell_color := normalize_color cell.fill.start_color
      ignoredColors.any fun ignored_color =>
        let ignored_color_clean := pyStrip ignored_color
        if ignored_color_clean == "" then false
        else if cell_color == ignored_color_clean then true
        else if pyStartsWith ignored_color_clean "FF" &&
            pyEndsWith cell_color (pyDrop ignored_color_clean 2) then true
        else if decide (List.IsInfix ("theme:" ++ ignored_color_clean).toList cell_color.toList) ||
            decide (List.IsInfix ("indexed:" ++ ignored_color_clean).toList cell_color.toList) then true
        else false

/-- An inclusive rectangle of 1-based cells: merged ranges, parsed config
ranges, and detected tables all use this shape
(start_row, start_col, end_row, end_col). -/
structure Rect where
  r1 : Nat
  c1 : Nat
  r2 : Nat
  c2 : Nat
deriving DecidableEq, Repr

/-- Containment of a (row, col) coordinate in a rectangle. -/
def Rect.containsRC (t : Rect) (row col : Nat) : Bool :=
  t.r1 ≤ row && row ≤ t.r2 && t.c1 ≤ col && col ≤ t.c2

/-- One sheet: bounds, the data-workbook value and the format-workbook style
of every cell, and the ordered merged-range list. -/
structure Sheet where
  maxRow : Nat
  maxCol : Nat
  val : Nat → Nat → Option XlValue
  fmt : Nat → Nat → CellFormat
  merged : List Rect

/-- `get_merged_range`: the first merged range containing the coordinate, or
None. -/
def get_merged_range (sheet : Sheet) (row col : Nat) : Option Rect :=
  sheet.merged.find? (fun mr => mr.containsRC row col)

/-- `get_top_left_coords`: top-left of the merged range containing the cell,
else the cell itself. -/
def get_top_left_coords (sheet : Sheet) (row col : Nat) : Nat × Nat :=
  match get_merged_range sheet row col with
  | some mr => (mr.r1, mr.c1)
  | none => (row, col)

/-- `get_effective_value`: the data-workbook value at the merged top-left. -/
def get_effective_value (ws : Sheet) (row col : Nat) : Option XlValue :=
  let tl := get_top_left_coords ws row col
  ws.val tl.1 tl.2

/-- One configured cell-range entry: the raw configuration string together
with the external `range_boundaries` parser's result on its trimmed form
(`none` when the range string cannot be parsed, in which case
`parse_cell_range` returns None and the entry is skipped). -/
abbrev RangeEntry := String × Option Rect

/-- The process-wide ignore/force-include configuration. -/
structure Config where
  ignoredColors : List String
  cellsToBeAdded : List RangeEntry
  ignoredRanges : List RangeEntry
deriving Repr

/-- Shared body of `is_cell_in_added_ranges` / `is_cell_in_ignored_ranges`:
disabled when the list is empty or its first raw string is falsy; otherwise a
hit if any entry's trimmed string is non-blank, parses, and contains the
coordinate. -/
def range_list_hit (ranges : List RangeEntry) (row col : Nat) : Bool :=
  match ranges with
  | [] => false
  | (first, _) :: _ =>
    if first == "" then false
    else
      ranges.any fun entry =>
        if pyStrip entry.1 == "" then false
        else
          match entry.2 with
          | some rect => rect.containsRC row col
          | none => false

/-- `is_cell_in_added_ranges` over CELLS_TO_BE_ADDED. -/
def is_cell_in_added_ranges (cfg : Config) (row col : Nat) : Bool :=
  range_list_hit cfg.cellsToBeAdded row col

/-- `is_cell_in_ignored_ranges` over IGNORED_RANGES. -/
def is_cell_in_ignored_ranges (cfg : Config) (row col : Nat) : Bool :=
  range_list_hit cfg.ignoredRanges row col

/-- `is_cell_in_ignored_range`: color-based ignore on one sheet; a cell in a
force-include range is never color-ignored; otherwise the cell itself or the
top-left of its merged range must carry an ignored color. -/
def is_cell_in_ignored_range (cfg : Config) (sheet : Sheet) (row col : Nat) : Bool :=
  if is_cell_in_added_ranges cfg row col then false
  else if is_ignored_color cfg.ignoredColors (sheet.fmt row col) then true
  else
    match get_merged_range sheet row col with
    | some mr => is_ignored_color cfg.ignoredColors (sheet.fmt mr.r1 mr.c1)
    | none => false

/-- `is_cell_ignored`: force-include wins, then explicit ignored ranges, then
color-based ignoring on either sheet. -/
def is_cell_ignored (cfg : Config) (ws_sample ws_imr : Sheet) (row col : Nat) : Bool :=
  if is_cell_in_added_ranges cfg row col then false
  else if is_cell_in_ignored_ranges cfg row col then true
  else if is_cell_in_ignored_range cfg ws_sample row col then true
  else if is_cell_in_ignored_range cfg ws_imr row col then true
  else false

/-- Truthiness of the four border side styles of one cell (`has_border` in
`find_bordered_tables`). -/
def has_border (ws : Sheet) (row col : Nat) : Bool :=
  let b := (ws.fmt row col).border
  b.left.isSome || b.right.isSome || b.top.isSome || b.bottom.isSome

/-- The downward growth loop of `find_bordered_tables`: extend `end_row`
while the next row carries any border in columns `j..max_col` (the full
remaining sheet width).  Structured as fuel recursion; `find_bordered_tables`
supplies fuel `max_row`, enough for the at most `max_row - i` steps. -/
def grow_end_row (ws : Sheet) (j : Nat) : Nat → Nat → Nat
  | 0, end_row => end_row
  | fuel + 1, end_row =>
    if end_row + 1 ≤ ws.maxRow &&
        (List.range' j (ws.maxCol + 1 - j)).any (fun k => has_border ws (end_row + 1) k) then
      grow_end_row ws j fuel (end_row + 1)
    else end_row

/-- The rightward growth loop of `find_bordered_tables`: extend `end_col`
while the next column carries any border in the already-grown rows
`i..end_row`. -/
def grow_end_col (ws : Sheet) (i end_row : Nat) : Nat → Nat → Nat
  | 0, end_col => end_col
  | fuel + 1, end_col =>
    if end_col + 1 ≤ ws.maxCol &&
        (List.range' i (end_row + 1 - i)).any (fun k => has_border ws k (end_col + 1)) then
      grow_end_col ws i end_row fuel (end_col + 1)
    else end_col

/-- Row-major list of the coordinates of a rectangle (used for the visited
set and for the scan order). -/
def rect_cells (t : Rect) : List (Nat × Nat) :=
  (List.range' t.r1 (t.r2 + 1 - t.r1)).flatMap fun r =>
    (List.range' t.c1 (t.c2 + 1 - t.c1)).map fun c => (r, c)

/-- One scan step of `find_bordered_tables`: skip visited cells, grow a
region from an unvisited bordered seed, mark its cells visited, emit it. -/
def fbt_step (ws : Sheet) (acc : List (Nat × Nat) × List Rect) (ij : Nat × Nat) :
    List (Nat × Nat) × List Rect :=
  if ij ∈ acc.1 then acc
  else if has_border ws ij.1 ij.2 then
    let end_row := grow_end_row ws ij.2 ws.maxRow ij.1
    let end_col := grow_end_col ws ij.1 end_row ws.maxCol ij.2
    let t : Rect := ⟨ij.1, ij.2, end_row, end_col⟩
    (acc.1 ++ rect_cells t, acc.2 ++ [t])
  else acc

/-- `find_bordered_tables`: row-major scan emitting greedily grown bordered
rectangles. -/
def find_bordered_tables (ws : Sheet) : List Rect :=
  ((rect_cells ⟨1, 1, ws.maxRow, ws.maxCol⟩).foldl (fbt_step ws) ([], [])).2

/-- `rectangles_overlap_or_touch`: false exactly when the rectangles are
separated by at least one full empty row or at least one full empty column. -/
def rectangles_overlap_or_touch (a b : Rect) : Bool :=
  if a.r2 < b.r1 - 1 then false
  else if b.r2 < a.r1 - 1 then false
  else if a.c2 < b.c1 - 1 then false
  else if b.c2 < a.c1 - 1 then false
  else true

/-- `merge_two_rects`: bounding union. -/
def merge_two_rects (a b : Rect) : Rect :=
  ⟨min a.r1 b.r1, min a.c1 b.c1, max a.r2 b.r2, max a.c2 b.c2⟩

/-- Inner sweep of `merge_rectangles` for one pivot: absorb, left to right,
every remaining rectangle touching the (growing) pivot; returns the grown
pivot, the untouched remainder, and whether anything was absorbed. -/
def absorb_pass (current : Rect) : List Rect → Rect × List Rect × Bool
  | [] => (current, [], false)
  | other :: rest =>
    if rectangles_overlap_or_touch current other then
      let res := absorb_pass (merge_two_rects current other) rest
      (res.1, res.2.1, true)
    else
      let res := absorb_pass current rest
      (res.1, other :: res.2.1, res.2.2)

/-- One full sweep of `merge_rectangles` over the list, pivoting on each
still-unused rectangle in order.  Fuel recursion: `absorb_pass` never grows
the remainder, so each pivot consumes at least one element and fuel equal to
the list length is always enough. -/
def merge_sweep : Nat → List Rect → List Rect × Bool
  | _, [] => ([], false)
  | 0, rects => (rects, false)
  | fuel + 1, r :: rest =>
    let a := absorb_pass r rest
    let s := merge_sweep fuel a.2.1
    (a.1 :: s.1, a.2.2 || s.2)

/-- The `while changed` loop of `merge_rectangles`, with fuel; each changed
sweep strictly shrinks the list, so fuel `rects.length` suffices. -/
def merge_loop : Nat → List Rect → List Rect
  | 0, rects => rects
  | fuel + 1, rects =>
    if rects.length ≤ 1 then rects
    else
      let s := merge_sweep rects.length rects
      if s.2 then merge_loop fuel s.1 else s.1

/-- `merge_rectangles`: repeatedly sweep-merge until no pair merges. -/
def merge_rectangles (rects : List Rect) : List Rect :=
  merge_loop rects.length rects

/-- Length of the common prefix of two character lists. -/
def common_prefix_len : List Char → List Char → Nat
  | x :: xs, y :: ys => if x = y then common_prefix_len xs ys + 1 else 0
  | _, _ => 0

/-- Modelled from the spec: `difflib.SequenceMatcher.find_longest_match` of
the Python standard library (an external collaborator; no junk elements and
inputs far below the autojunk limit).  The documented result: the longest
matching block, and among equally long blocks the one starting earliest in
`a`, then earliest in `b`. -/
def longest_match (a b : List Char) : Nat × Nat × Nat :=
  (List.range a.length).foldl (fun best i =>
    (List.range b.length).foldl (fun best j =>
      let k := common_prefix_len (a.drop i) (b.drop j)
      if k > best.2.2 then (i, j, k) else best) best) (0, 0, 0)

/-- Modelled from the spec: total size of `difflib`'s matching blocks,
computed by the documented divide-and-conquer around the longest match.  Fuel
recursion; each level strictly shrinks the combined length, so
`a.length + b.length + 1` steps always suffice. -/
def total_matches_go : Nat → List Char → List Char → Nat
  | 0, _, _ => 0
  | fuel + 1, a, b =>
    let m := longest_match a b
    if m.2.2 = 0 then 0
    else
      total_matches_go fuel (a.take m.1) (b.take m.2.1) + m.2.2 +
        total_matches_go fuel (a.drop (m.1 + m.2.2)) (b.drop (m.2.1 + m.2.2))

/-- Total matched size for `SequenceMatcher.ratio`. -/
def total_matches (a b : List Char) : Nat :=
  total_matches_go (a.length + b.length + 1) a b

/-- Modelled from the spec: `difflib.SequenceMatcher(None, a, b).ratio()`,
`2.0 * M / T` (and 1.0 when both inputs are empty), as an exact rational. -/
def sequence_matcher_ratio (a b : List Char) : Rat :=
  if a.length + b.length = 0 then 1
  else Rat.divInt (2 * (total_matches a b : Int)) ((a.length : Int) + (b.length : Int))

/-- `header_similarity`: None yields 0, strings are trimmed and lowercased;
blank yields 0, equality yields 1, otherwise the SequenceMatcher ratio. -/
def header_similarity (text_a text_b : Option XlValue) : Rat :=
  match text_a, text_b with
  | none, _ => 0
  | _, none => 0
  | some ta, some tb =>
    let a := pyLower (pyStrip (pyToString ta))
    let b := pyLower (pyStrip (pyToString tb))
    if a == "" || b == "" then 0
    else if a == b then 1
    else sequence_matcher_ratio a.toList b.toList

/-- The default `similarity_threshold` parameter (0.72). -/
def similarity_threshold : Rat := Rat.divInt 72 100

/-- Python `list.index` (first occurrence; callers only use it on members). -/
def listIndex : List String → String → Nat
  | [], _ => 0
  | x :: xs, s => if x == s then 0 else listIndex xs s + 1

/-- Python dict insertion on an insertion-ordered association list: an
existing key keeps its position and gets the new value, a new key is appended. -/
def dictInsert (m : List (String × Nat)) (k : String) (v : Nat) : List (String × Nat) :=
  if m.any (fun p => p.1 == k) then m.map (fun p => if p.1 == k then (p.1, v) else p)
  else m ++ [(k, v)]

/-- Python dict lookup (callers only look up present keys; 0 as a formal
default). -/
def dictGet (m : List (String × Nat)) (k : String) : Nat :=
  match m.find? (fun p => p.1 == k) with
  | some p => p.2
  | none => 0

/-- The exact pass of `pair_columns_order_preserving`: lock in identical-text
pairs, in sample order; the accumulator is (paired, used_imr). -/
def exact_pass_step (imr_headers : List String)
    (acc : List (String × String) × List String) (s_hdr : String) :
    List (String × String) × List String :=
  if imr_headers.contains s_hdr && !(acc.2.contains s_hdr) then
    (acc.1 ++ [(s_hdr, s_hdr)], acc.2 ++ [s_hdr])
  else acc

/-- The inner candidate search of the fuzzy pass: the highest-scoring unused
target header, keeping the earlier candidate on ties, starting from the
threshold so only scores strictly above it qualify. -/
def fuzzy_best (imr_headers used : List String) (s_hdr : String) : Option String × Rat :=
  imr_headers.foldl (fun best i_hdr =>
    if used.contains i_hdr then best
    else
      let score := header_similarity (some (XlValue.str s_hdr)) (some (XlValue.str i_hdr))
      if score > best.2 then (some i_hdr, score) else best) (none, similarity_threshold)

/-- The fuzzy pass of `pair_columns_order_preserving`: for each still
unpaired sample header, greedily pair the best candidate if any qualified. -/
def fuzzy_pass_step (imr_headers : List String)
    (acc : List (String × String) × List String) (s_hdr : String) :
    List (String × String) × List String :=
  if acc.1.any (fun p => p.1 == s_hdr) then acc
  else
    match (fuzzy_best imr_headers acc.2 s_hdr).1 with
    | none => acc
    | some best_hdr => (acc.1 ++ [(s_hdr, best_hdr)], acc.2 ++ [best_hdr])

/-- Stable insertion (after equal keys) for the final re-sort of pairs by the
sample header's original column order. -/
def insert_by_index (sample_headers : List String) (x : String × String) :
    List (String × String) → List (String × String)
  | [] => [x]
  | y :: ys =>
    if listIndex sample_headers y.1 ≤ listIndex sample_headers x.1 then
      y :: insert_by_index sample_headers x ys
    else x :: y :: ys

/-- Stable sort by sample-header index (Python `list.sort` is stable; the
stable sort of a list by a key is unique, so insertion sort realises it). -/
def sort_pairs_by_index (sample_headers : List String) (l : List (String × String)) :
    List (String × String) :=
  l.foldl (fun acc x => insert_by_index sample_headers x acc) []

/-- `pair_columns_order_preserving`: exact pass, fuzzy pass, stable re-sort
by sample order, and the two unmatched-header lists. -/
def pair_columns_order_preserving (header_sample_map header_imr_map : List (String × Nat)) :
    List (String × String) × List String × List String :=
  let sample_headers := header_sample_map.map Prod.fst
  let imr_headers := header_imr_map.map Prod.fst
  let acc1 := sample_headers.foldl (exact_pass_step imr_headers) ([], [])
  let acc2 := sample_headers.foldl (fuzzy_pass_step imr_headers) acc1
  let paired := sort_pairs_by_index sample_headers acc2.1
  let missing_in_imr := sample_headers.filter (fun s => !(paired.any (fun p => p.1 == s)))
  let missing_in_sample := imr_headers.filter (fun i => !(paired.any (fun p => p.2 == i)))
  (paired, missing_in_imr, missing_in_sample)

/-- A canonical coordinate pair (sample top-left row/col, IMR top-left
row/col), the deduplication identity. -/
abbrev CanonPair := Nat × Nat × Nat × Nat

/-- `is_top_left_position`: the raw coordinate equals the canonical top-left
on at least one side. -/
def is_top_left_position (ws_sample ws_imr : Sheet) (r c : Nat) : Bool :=
  let s := get_top_left_coords ws_sample r c
  let i := get_top_left_coords ws_imr r c
  (r == s.1 && c == s.2) || (r == i.1 && c == i.2)

/-- `canonical_pair_for`: the CanonicalPair of a raw coordinate. -/
def canonical_pair_for (ws_sample ws_imr : Sheet) (r c : Nat) : CanonPair :=
  let s := get_top_left_coords ws_sample r c
  let i := get_top_left_coords ws_imr r c
  (s.1, s.2, i.1, i.2)

/-- One row of the per-sheet report (`ws_out.append(issue_data)`): reported
coordinate, row key (`Name`), column key (`Column Name`), issue type, and the
two representations.  The row key is the raw Python value placed in the
report row. -/
structure IssueRecord where
  coordRow : Nat
  coordCol : Nat
  rowKey : Option XlValue
  colKey : String
  issueType : String
  sampleRepr : String
  generatedRepr : String
deriving DecidableEq, Repr

/-- The mutable per-sheet scan state: the primary and ignored issue rows and
counters, the cross-pass `seen_pairs` set, the key/value pass's
`processed_cells` set, and a ghost log recording each CanonicalPair at the
moment the fallback or key/value pass claims it (inserts it into
`seen_pairs`); the log is instrumentation only and influences nothing. -/
structure ScanState where
  issues : List IssueRecord
  ignored : List IssueRecord
  issuesCount : Nat
  ignoredCount : Nat
  seenPairs : List CanonPair
  processedCells : List (Nat × Nat)
  claimLog : List CanonPair
deriving DecidableEq, Repr

/-- The fresh state at the start of a sheet comparison. -/
def initScanState : ScanState :=
  ⟨[], [], 0, 0, [], [], []⟩

/-- Routing of one comparison's issues: each issue goes to the ignored bucket
or the primary report according to the cell's (fixed) ignored flag. -/
def route_issues (isIgn : Bool) (mk : Issue → IssueRecord) (issues : List Issue)
    (st : ScanState) : ScanState :=
  issues.foldl (fun st issue =>
    if isIgn then
      { st with ignored := st.ignored ++ [mk issue], ignoredCount := st.ignoredCount + 1 }
    else
      { st with issues := st.issues ++ [mk issue], issuesCount := st.issuesCount + 1 }) st

/-- The key under which a header cell value enters the header map: strings
are stripped and dropped if blank, None is dropped, numbers are stringified. -/
def headerKey : Option XlValue → Option String
  | none => none
  | some (XlValue.str s) => if pyStrip s == "" then none else some (pyStrip s)
  | some (XlValue.int n) => some (toString n)

/-- Conditional insertion into a header map. -/
def headerMapAdd (m : List (String × Nat)) (k : Option String) (c : Nat) :
    List (String × Nat) :=
  match k with
  | none => m
  | some key => dictInsert m key c

/-- The header maps of one table region: effective values of the header row,
excluding the leading row-label column, in left-to-right order. -/
def header_maps (ws_sample ws_imr : Sheet) (t : Rect) :
    List (String × Nat) × List (String × Nat) :=
  (List.range' (t.c1 + 1) (t.c2 - t.c1)).foldl (fun acc c =>
    (headerMapAdd acc.1 (headerKey (get_effective_value ws_sample t.r1 c)) c,
     headerMapAdd acc.2 (headerKey (get_effective_value ws_imr t.r1 c)) c)) ([], [])

/-- One paired header: a Value Mismatch issue when the texts differ. -/
def table_hdr_mismatch_step (t : Rect) (hsm : List (String × Nat))
    (st : ScanState) (p : String × String) : ScanState :=
  if p.1 ≠ p.2 then
    { st with
      issues := st.issues ++
        [⟨t.r1, dictGet hsm p.1, some (XlValue.str "Header"), p.1, "Value Mismatch", p.1, p.2⟩],
      issuesCount := st.issuesCount + 1 }
  else st

/-- One sample header missing from the target: a Missing in report issue. -/
def table_hdr_missing_imr_step (t : Rect) (hsm : List (String × Nat))
    (st : ScanState) (s : String) : ScanState :=
  { st with
    issues := st.issues ++
      [⟨t.r1, dictGet hsm s, some (XlValue.str ""), s, "Missing in report", s, ""⟩],
    issuesCount := st.issuesCount + 1 }

/-- One target header missing from the sample: a Missing in sample issue. -/
def table_hdr_missing_sample_step (t : Rect) (him : List (String × Nat))
    (st : ScanState) (i : String) : ScanState :=
  { st with
    issues := st.issues ++
      [⟨t.r1, dictGet him i, some (XlValue.str ""), i, "Missing in sample", "", i⟩],
    issuesCount := st.issuesCount + 1 }

/-- The header-issue block of the table pass: one Value Mismatch per paired
pair whose texts differ, then the missing-column issues, all primary. -/
def table_header_issues (t : Rect) (hsm him : List (String × Nat))
    (paired : List (String × String)) (missing_in_imr missing_in_sample : List String)
    (st : ScanState) : ScanState :=
  missing_in_sample.foldl (table_hdr_missing_sample_step t him)
    (missing_in_imr.foldl (table_hdr_missing_imr_step t hsm)
      (paired.foldl (table_hdr_mismatch_step t hsm) st))

/-- One paired-column step of the table pass's data-row loop.  The
accumulator carries the per-table `seen_row_pairs` set of raw
(row, sample column, imr column) triples alongside the scan state. -/
def table_pair_step (cfg : Config) (ws_sample ws_imr : Sheet)
    (hsm him : List (String × Nat)) (row_header : Option XlValue) (r : Nat)
    (acc : List (Nat × Nat × Nat) × ScanState) (p : String × String) :
    List (Nat × Nat × Nat) × ScanState :=
  let c_s := dictGet hsm p.1
  let c_i := dictGet him p.2
  if is_cell_in_ignored_ranges cfg r c_s && is_cell_in_ignored_ranges cfg r c_i then acc
  else if (r, c_s, c_i) ∈ acc.1 then acc
  else
    let seenRP := acc.1 ++ [(r, c_s, c_i)]
    let val_sample := get_effective_value ws_sample r c_s
    let val_imr := get_effective_value ws_imr r c_i
    let stl := get_top_left_coords ws_sample r c_s
    let itl := get_top_left_coords ws_imr r c_i
    let fmt_s := ws_sample.fmt stl.1 stl.2
    let fmt_i := ws_imr.fmt itl.1 itl.2
    let isIgn := is_cell_ignored cfg ws_sample ws_imr r c_s ||
      is_cell_ignored cfg ws_sample ws_imr r c_i
    let issues := compare_cell fmt_s fmt_i val_sample val_imr
    (seenRP,
      route_issues isIgn
        (fun issue => ⟨r, c_s, row_header, p.1, issue.type, issue.sample, issue.generated⟩)
        issues acc.2)

/-- One data row of the table pass: resolve the row header (sample first,
then IMR) and walk the paired columns. -/
def table_row_step (cfg : Config) (ws_sample ws_imr : Sheet)
    (hsm him : List (String × Nat)) (t : Rect) (paired : List (String × String))
    (acc : List (Nat × Nat × Nat) × ScanState) (r : Nat) :
    List (Nat × Nat × Nat) × ScanState :=
  let row_header :=
    match get_effective_value ws_sample r t.c1 with
    | some v => some v
    | none => get_effective_value ws_imr r t.c1
  paired.foldl (table_pair_step cfg ws_sample ws_imr hsm him row_header r) acc

/-- One table region of the table pass: headers, pairing, header issues,
then the data rows with a fresh `seen_row_pairs` set. -/
def table_step (cfg : Config) (ws_sample ws_imr : Sheet) (st : ScanState) (t : Rect) :
    ScanState :=
  let maps := header_maps ws_sample ws_imr t
  let pc := pair_columns_order_preserving maps.1 maps.2
  let st := table_header_issues t maps.1 maps.2 pc.1 pc.2.1 pc.2.2 st
  ((List.range' (t.r1 + 1) (t.r2 - t.r1)).foldl
    (table_row_step cfg ws_sample ws_imr maps.1 maps.2 t pc.1) ([], st)).2

/-- Whether a coordinate lies in any of the union table regions (the
`union_table_cells` set). -/
def in_union_tables (union_tables : List Rect) (r c : Nat) : Bool :=
  union_tables.any fun t => t.containsRC r c

/-- One cell of the full-grid fallback sweep (which the script runs directly
after the table pass): outside tables and ignored ranges, with content on
some side, claim the CanonicalPair (top-left positions only) and compare with
empty row/column labels. -/
def fallback_step (cfg : Config) (ws_sample ws_imr : Sheet) (union_tables : List Rect)
    (st : ScanState) (rc : Nat × Nat) : ScanState :=
  if in_union_tables union_tables rc.1 rc.2 then st
  else if is_cell_in_ignored_ranges cfg rc.1 rc.2 then st
  else
    let this_val_s := get_effective_value ws_sample rc.1 rc.2
    let this_val_i := get_effective_value ws_imr rc.1 rc.2
    if this_val_s.isNone && this_val_i.isNone then st
    else
      let pair_key := canonical_pair_for ws_sample ws_imr rc.1 rc.2
      if pair_key ∈ st.seenPairs then st
      else if !(is_top_left_position ws_sample ws_imr rc.1 rc.2) then st
      else
        let st := { st with seenPairs := st.seenPairs ++ [pair_key],
                            claimLog := st.claimLog ++ [pair_key] }
        let stl := get_top_left_coords ws_sample rc.1 rc.2
        let itl := get_top_left_coords ws_imr rc.1 rc.2
        let fmt_s := ws_sample.fmt stl.1 stl.2
        let fmt_i := ws_imr.fmt itl.1 itl.2
        let isIgn := is_cell_ignored cfg ws_sample ws_imr rc.1 rc.2
        let issues := compare_cell fmt_s fmt_i this_val_s this_val_i
        route_issues isIgn
          (fun issue => ⟨rc.1, rc.2, some (XlValue.str ""), "", issue.type, issue.sample,
            issue.generated⟩)
          issues st

/-- `looks_like_key`: a non-empty string, longer than one character once
stripped, not purely numeric, not starting with an opening parenthesis. -/
def looks_like_key : Option XlValue → Bool
  | some (XlValue.str s) =>
    if s == "" then false
    else
      let stripped := pyStrip s
      if stripped == "" then false
      else if stripped.toList.all Char.isDigit then false
      else if pyStartsWith stripped "(" then false
      else stripped.length > 1
  | _ => false

/-- The rightward scan of the key/value pass for one key candidate at
(r, c): walk the columns after `c`, stopping at a table cell or another
key-like cell, skipping ignored ranges and already-claimed or non-top-left
positions, and comparing the first contentful claimed cell before stopping.
`src_is_sample` selects which workbook supplies the keys. -/
def kv_scan_right (cfg : Config) (ws_sample ws_imr : Sheet) (union_tables : List Rect)
    (src_is_sample : Bool) (key_text : Option XlValue) (r : Nat) :
    List Nat → ScanState → ScanState
  | [], st => st
  | cc :: rest, st =>
    if in_union_tables union_tables r cc then st
    else if is_cell_in_ignored_ranges cfg r cc then
      kv_scan_right cfg ws_sample ws_imr union_tables src_is_sample key_text r rest st
    else if looks_like_key (get_effective_value (if src_is_sample then ws_sample else ws_imr) r cc) then st
    else
      let value_src := get_effective_value (if src_is_sample then ws_sample else ws_imr) r cc
      let value_other := get_effective_value (if src_is_sample then ws_imr else ws_sample) r cc
      let pair_key := canonical_pair_for ws_sample ws_imr r cc
      if pair_key ∈ st.seenPairs then
        kv_scan_right cfg ws_sample ws_imr union_tables src_is_sample key_text r rest st
      else if !(is_top_left_position ws_sample ws_imr r cc) then
        kv_scan_right cfg ws_sample ws_imr union_tables src_is_sample key_text r rest st
      else
        let st := { st with seenPairs := st.seenPairs ++ [pair_key],
                            claimLog := st.claimLog ++ [pair_key] }
        if value_src.isNone && value_other.isNone then
          kv_scan_right cfg ws_sample ws_imr union_tables src_is_sample key_text r rest st
        else
          let stl := get_top_left_coords ws_sample r cc
          let itl := get_top_left_coords ws_imr r cc
          let fmt_s := ws_sample.fmt stl.1 stl.2
          let fmt_i := ws_imr.fmt itl.1 itl.2
          let isIgn := is_cell_ignored cfg ws_sample ws_imr r cc
          let val_sample := if src_is_sample then value_src else value_other
          let val_imr := if src_is_sample then value_other else value_src
          let issues := compare_cell fmt_s fmt_i val_sample val_imr
          let colKeyVal := if src_is_sample then safe_str value_src else safe_str value_other
          let st := route_issues isIgn
            (fun issue => ⟨r, cc, key_text, colKeyVal, issue.type, issue.sample,
              issue.generated⟩)
            issues st
          { st with processedCells := st.processedCells ++ [(r, cc)] }

/-- One cell of the key/value pass for one source workbook: skip table and
processed cells; a key-like effective value triggers the rightward scan and
is then marked processed. -/
def kv_cell_step (cfg : Config) (ws_sample ws_imr : Sheet) (union_tables : List Rect)
    (max_col_union : Nat) (src_is_sample : Bool) (st : ScanState) (rc : Nat × Nat) :
    ScanState :=
  if in_union_tables union_tables rc.1 rc.2 || (rc.1, rc.2) ∈ st.processedCells then st
  else
    let key_text := get_effective_value (if src_is_sample then ws_sample else ws_imr) rc.1 rc.2
    if !(looks_like_key key_text) then st
    else
      let st := kv_scan_right cfg ws_sample ws_imr union_tables src_is_sample key_text rc.1
        (List.range' (rc.2 + 1) (max_col_union - rc.2)) st
      { st with processedCells := st.processedCells ++ [(rc.1, rc.2)] }

/-- `runSheet`: the whole per-sheet comparison of compare_excel_union.py ---
union tables from both sides, then the table pass, then the full-grid
fallback sweep, then the key/value pass keyed from the sample side followed
by the IMR side, all over one shared state. -/
def runSheet (cfg : Config) (ws_sample ws_imr : Sheet) : ScanState :=
  let union_tables :=
    merge_rectangles (find_bordered_tables ws_sample ++ find_bordered_tables ws_imr)
  let max_row_union := max ws_sample.maxRow ws_imr.maxRow
  let max_col_union := max ws_sample.maxCol ws_imr.maxCol
  let grid := rect_cells ⟨1, 1, max_row_union, max_col_union⟩
  let st := union_tables.foldl (table_step cfg ws_sample ws_imr) initScanState
  let st := grid.foldl (fallback_step cfg ws_sample ws_imr union_tables) st
  let st := grid.foldl
    (kv_cell_step cfg ws_sample ws_imr union_tables max_col_union true) st
  grid.foldl (kv_cell_step cfg ws_sample ws_imr union_tables max_col_union false) st

/-- A workbook: its sheets with their names, in order. -/
abbrev Workbook := List (String × Sheet)

/-- Python `wb[name]` (callers only index present names; a degenerate empty
sheet as the formal default). -/
def wbGet (wb : Workbook) (name : String) : Sheet :=
  match wb.find? (fun p => p.1 == name) with
  | some p => p.2
  | none => ⟨0, 0, fun _ _ => none, fun _ _ =>
      ⟨⟨none, none, none, none, none⟩, ⟨none, none⟩,
       ⟨⟨true, PyAttr.absent, PyAttr.absent, PyAttr.absent, TryStr.val ""⟩⟩,
       ⟨none, none, none, none⟩⟩, []⟩

/-- One row of the Summary sheet: name, presence note, and the two counts. -/
structure SummaryEntry where
  sheetName : String
  missingNote : String
  issueCount : Nat
  ignoredCount : Nat
deriving DecidableEq, Repr

/-- The summary produced by the main loop: sample sheets in order, then
IMR-only sheets; a sheet missing on one side gets a presence note and zero
counts, a shared sheet gets its `runSheet` counters. -/
def runSummary (cfg : Config) (wb_sample wb_imr : Workbook) : List SummaryEntry :=
  let sample_names := wb_sample.map Prod.fst
  let imr_names := wb_imr.map Prod.fst
  let ordered := sample_names ++ imr_names.filter (fun s => !(sample_names.contains s))
  ordered.map fun name =>
    if !(sample_names.contains name) then ⟨name, "Missing In Sample", 0, 0⟩
    else if !(imr_names.contains name) then ⟨name, "Missing In IMR_Report", 0, 0⟩
    else
      let res := runSheet cfg (wbGet wb_sample name) (wbGet wb_imr name)
      ⟨name, "", res.issuesCount, res.ignoredCount⟩

/-- Following the spec's words for the claim about table growth ("extend
end_row downward while any cell in the current column span on the next row
carries a border"): at that point the region's column span is the single
seed column `j`, so the downward check inspects only column `j`.  To be
compared with `grow_end_row`, which the source writes over columns
`j..max_col`. -/
def grow_end_row_specreading (ws : Sheet) (j : Nat) : Nat → Nat → Nat
  | 0, end_row => end_row
  | fuel + 1, end_row =>
    if end_row + 1 ≤ ws.maxRow && has_border ws (end_row + 1) j then
      grow_end_row_specreading ws j fuel (end_row + 1)
    else end_row

/-- The scan step of the spec-reading table detector (identical to
`fbt_step` except for the downward growth condition). -/
def fbt_step_specreading (ws : Sheet) (acc : List (Nat × Nat) × List Rect)
    (ij : Nat × Nat) : List (Nat × Nat) × List Rect :=
  if ij ∈ acc.1 then acc
  else if has_border ws ij.1 ij.2 then
    let end_row := grow_end_row_specreading ws ij.2 ws.maxRow ij.1
    let end_col := grow_end_col ws ij.1 end_row ws.maxCol ij.2
    let t : Rect := ⟨ij.1, ij.2, end_row, end_col⟩
    (acc.1 ++ rect_cells t, acc.2 ++ [t])
  else acc

/-- The table detector as the claim describes it, with the downward growth
restricted to the region's current column span. -/
def find_bordered_tables_specreading (ws : Sheet) : List Rect :=
  ((rect_cells ⟨1, 1, ws.maxRow, ws.maxCol⟩).foldl (fbt_step_specreading ws) ([], [])).2

/-- A falsy color object (openpyxl's default empty color): normalizes to
"None". -/
def plainColor : ColorObj :=
  ⟨true, PyAttr.absent, PyAttr.absent, PyAttr.absent, TryStr.val "Color()"⟩

/-- A plain cell style used by the concrete test sheets. -/
def plainFmt : CellFormat :=
  ⟨⟨some "Calibri", none, none, none, some "11.0"⟩, ⟨none, none⟩, ⟨plainColor⟩,
   ⟨none, none, none, none⟩⟩

/-- The same style with thin borders on all four sides. -/
def borderedFmt : CellFormat :=
  ⟨⟨some "Calibri", none, none, none, some "11.0"⟩, ⟨none, none⟩, ⟨plainColor⟩,
   ⟨some "thin", some "thin", some "thin", some "thin"⟩⟩

/-- The empty configuration: no ignored colors, no ranges. -/
def emptyCfg : Config := ⟨[], [], []⟩

/-- Sample sheet for the merged-class dedup scenario: a fully bordered 3x2
table, header "H" in column 2, row labels "r2"/"r3", and a vertical merge
over rows 2-3 of column 2 whose top-left holds "A". -/
def wsMergedSample : Sheet :=
  ⟨3, 2,
   fun r c =>
     if r == 1 && c == 2 then some (XlValue.str "H")
     else if r == 2 && c == 1 then some (XlValue.str "r2")
     else if r == 3 && c == 1 then some (XlValue.str "r3")
     else if r == 2 && c == 2 then some (XlValue.str "A")
     else none,
   fun _ _ => borderedFmt,
   [⟨2, 2, 3, 2⟩]⟩

/-- Target sheet of the merged-class dedup scenario: identical except that
the merged cell's top-left holds "B". -/
def wsMergedImr : Sheet :=
  ⟨3, 2,
   fun r c =>
     if r == 1 && c == 2 then some (XlValue.str "H")
     else if r == 2 && c == 1 then some (XlValue.str "r2")
     else if r == 3 && c == 1 then some (XlValue.str "r3")
     else if r == 2 && c == 2 then some (XlValue.str "B")
     else none,
   fun _ _ => borderedFmt,
   [⟨2, 2, 3, 2⟩]⟩

/-- Sample sheet of the key/value scenario: "Status", an empty cell, then
"OK", all outside any table. -/
def wsStatusSample : Sheet :=
  ⟨1, 3,
   fun r c =>
     if r == 1 && c == 1 then some (XlValue.str "Status")
     else if r == 1 && c == 3 then some (XlValue.str "OK")
     else none,
   fun _ _ => plainFmt, []⟩

/-- Target sheet of the key/value scenario: same, with "FAIL" in place of
"OK". -/
def wsStatusImr : Sheet :=
  ⟨1, 3,
   fun r c =>
     if r == 1 && c == 1 then some (XlValue.str "Status")
     else if r == 1 && c == 3 then some (XlValue.str "FAIL")
     else none,
   fun _ _ => plainFmt, []⟩

/-- A one-cell sheet holding "ABC". -/
def wsOneCellSample : Sheet :=
  ⟨1, 1, fun r c => if r == 1 && c == 1 then some (XlValue.str "ABC") else none,
   fun _ _ => plainFmt, []⟩

/-- A one-cell sheet holding "XYZ". -/
def wsOneCellImr : Sheet :=
  ⟨1, 1, fun r c => if r == 1 && c == 1 then some (XlValue.str "XYZ") else none,
   fun _ _ => plainFmt, []⟩

/-- Configuration whose force-include ranges and ignored ranges both cover
cell (1, 1) ("A1:A1" parsed by the external parser). -/
def addAndIgnoreCfg : Config :=
  ⟨[], [("A1:A1", some ⟨1, 1, 1, 1⟩)], [("A1:A1", some ⟨1, 1, 1, 1⟩)]⟩

/-- Configuration with only the force-include range over (1, 1). -/
def addOnlyCfg : Config :=
  ⟨[], [("A1:A1", some ⟨1, 1, 1, 1⟩)], []⟩

/-- Sample sheet of the header-pairing scenario: a bordered 1x2 header row
whose second cell is " Total Cost ". -/
def wsTotalCostSample : Sheet :=
  ⟨1, 2,
   fun r c =>
     if r == 1 && c == 1 then some (XlValue.str "Lbl")
     else if r == 1 && c == 2 then some (XlValue.str " Total Cost ")
     else none,
   fun _ _ => borderedFmt, []⟩

/-- Target sheet of the header-pairing scenario: "total cost" instead. -/
def wsTotalCostImr : Sheet :=
  ⟨1, 2,
   fun r c =>
     if r == 1 && c == 1 then some (XlValue.str "Lbl")
     else if r == 1 && c == 2 then some (XlValue.str "total cost")
     else none,
   fun _ _ => borderedFmt, []⟩

/-- Sample sheet of the unpaired-header scenario: header "Qty". -/
def wsQtySample : Sheet :=
  ⟨1, 2,
   fun r c =>
     if r == 1 && c == 1 then some (XlValue.str "Lbl")
     else if r == 1 && c == 2 then some (XlValue.str "Qty")
     else none,
   fun _ _ => borderedFmt, []⟩

/-- Target sheet of the unpaired-header scenario: header "Amount". -/
def wsQtyImr : Sheet :=
  ⟨1, 2,
   fun r c =>
     if r == 1 && c == 1 then some (XlValue.str "Lbl")
     else if r == 1 && c == 2 then some (XlValue.str "Amount")
     else none,
   fun _ _ => borderedFmt, []⟩

/-- A 2x3 sheet with borders only at (1,1) and (2,3): the downward growth of
the seed at (1,1) sees the border of (2,3) because it scans the full
remaining width. -/
def wsStaggered : Sheet :=
  ⟨2, 3,
   fun _ _ => none,
   fun r c =>
     if (r == 1 && c == 1) || (r == 2 && c == 3) then borderedFmt else plainFmt,
   []⟩

/-- The dedup soundness property threaded through the fallback and key/value
passes: the claimed CanonicalPairs are pairwise distinct and all recorded in
`seen_pairs`. -/
def claim_log_ok (st : ScanState) : Prop :=
  st.claimLog.Nodup ∧ ∀ p ∈ st.claimLog, p ∈ st.seenPairs

/-- The zero-report property used for the self-comparison claim. -/
def zero_counts (st : ScanState) : Prop :=
  st.issuesCount = 0 ∧ st.ignoredCount = 0

/-- A cell style whose fill carries the RGB color FF00FF00 (used to exercise
the color-ignore rules). -/
def greenFmt : CellFormat :=
  ⟨⟨some "Calibri", none, none, none, some "11.0"⟩, ⟨none, none⟩,
   ⟨⟨false, PyAttr.value (some "FF00FF00"), PyAttr.absent, PyAttr.absent,
     TryStr.val "Color(rgb=FF00FF00)"⟩⟩,
   ⟨none, none, none, none⟩⟩

/-- Sample sheet of the forced-column scenario: a fully bordered 2x3 table
whose header "Amount" sits in column 2 with data value "5" below it. -/
def wsForcedPairSample : Sheet :=
  ⟨2, 3,
   fun r c =>
     if r == 1 && c == 2 then some (XlValue.str "Amount")
     else if r == 2 && c == 1 then some (XlValue.str "row")
     else if r == 2 && c == 2 then some (XlValue.str "5")
     else none,
   fun _ _ => borderedFmt, []⟩

/-- Target sheet of the forced-column scenario: header "Amouns" sits in
column 3 with data value "7" below it (fuzzy-pairs with "Amount"). -/
def wsForcedPairImr : Sheet :=
  ⟨2, 3,
   fun r c =>
     if r == 1 && c == 3 then some (XlValue.str "Amouns")
     else if r == 2 && c == 1 then some (XlValue.str "row")
     else if r == 2 && c == 3 then some (XlValue.str "7")
     else none,
   fun _ _ => borderedFmt, []⟩

/-- Configuration force-including column B (rows 1-2) and ignoring column C
(rows 1-2), both parsed by the external parser. -/
def forceAndIgnoreColsCfg : Config :=
  ⟨[], [("B1:B2", some ⟨1, 2, 2, 2⟩)], [("C1:C2", some ⟨1, 3, 2, 3⟩)]⟩

/-- C8: for every color object, `normalize_color` never propagates a
failure: when the try-block succeeds it returns that string, and when the
try-block raises it returns the diagnostic string "Error:" followed by the
exception message, so callers can always format output. -/
theorem claim_C8_theorem (c : ColorObj) :
    (∃ s, normalize_color_body c = Except.ok s ∧ normalize_color c = s) ∨
    (∃ m, normalize_color_body c = Except.error m ∧ normalize_color c = "Error:" ++ m) := by
  cases h : normalize_color_body c with
  | ok s => exact Or.inl ⟨s, rfl, by simp [normalize_color, h]⟩
  | error m => exact Or.inr ⟨m, rfl, by simp [normalize_color, h]⟩

/-- C9: when the first entry of the configured ignored-colors list is the
empty string, `is_ignored_color` returns false for every cell, even when
later entries are non-empty color tokens. -/
theorem claim_C9_theorem (colors : List String) (cell : CellFormat)
    (h : colors.head? = some "") : is_ignored_color colors cell = false := by
  cases colors with
  | nil => simp at h
  | cons first rest =>
    have hf : first = "" := by simpa using h
    subst hf
    simp [is_ignored_color]

/-- C9 witness: with the list ["", "FF00FF00"], even a cell whose fill color
is exactly FF00FF00 (which the second token would match, as the contrast
conjunct shows) is not color-ignored. -/
theorem claim_C9_witness :
    (["", "FF00FF00"] : List String).head? = some "" ∧
    is_ignored_color ["", "FF00FF00"] greenFmt = false ∧
    is_ignored_color ["FF00FF00"] greenFmt = true :=
  ⟨rfl, claim_C9_theorem ["", "FF00FF00"] greenFmt rfl, by decide⟩

/-- C3 counterexample: two failures of the claimed force-include precedence.
First, cell (1,1) lies in a force-include range and its values differ (the
add-only run reports the mismatch), yet with an ignored range also covering
(1,1) the run produces no issue anywhere: the ignored-range skip in the scan
passes precedes force-include.  Second, in the table pass a force-included
sample column (B, value "5" vs "7") fuzzy-paired with a target column lying
in an ignored range (C) is compared, but its Value Mismatch is routed to the
ignored bucket, because that pass routes by the OR of the classifications of
both paired-column coordinates. -/
theorem claim_C3_counterexample :
    is_cell_in_added_ranges addAndIgnoreCfg 1 1 = true ∧
    safe_str (get_effective_value wsOneCellSample 1 1) ≠
      safe_str (get_effective_value wsOneCellImr 1 1) ∧
    (runSheet addAndIgnoreCfg wsOneCellSample wsOneCellImr).issuesCount = 0 ∧
    (runSheet addAndIgnoreCfg wsOneCellSample wsOneCellImr).ignoredCount = 0 ∧
    (runSheet addOnlyCfg wsOneCellSample wsOneCellImr).issuesCount = 1 ∧
    is_cell_in_added_ranges forceAndIgnoreColsCfg 2 2 = true ∧
    (runSheet forceAndIgnoreColsCfg wsForcedPairSample wsForcedPairImr).ignored =
      [⟨2, 2, some (XlValue.str "row"), "Amount", "Value Mismatch", "5", "7"⟩] ∧
    (runSheet forceAndIgnoreColsCfg wsForcedPairSample wsForcedPairImr).ignoredCount = 1 := by
  refine ⟨by decide, by decide, by decide, by decide, by decide, by decide, by decide,
    by decide⟩

/-- Routing with a false ignored flag never touches the ignored bucket. -/
theorem route_issues_primary (mk : Issue → IssueRecord) :
    ∀ (issues : List Issue) (st : ScanState),
      (route_issues false mk issues st).ignored = st.ignored ∧
      (route_issues false mk issues st).ignoredCount = st.ignoredCount := by
  intro issues
  induction issues with
  | nil => intro st; exact ⟨rfl, rfl⟩
  | cons i is ih =>
    intro st
    simp only [route_issues, List.foldl_cons]
    simpa using ih _

/-- A force-included coordinate is classified as not ignored by the combined
rule and by each sheet's color rule. -/
theorem forced_not_ignored (cfg : Config) (ws_sample ws_imr : Sheet) (r c : Nat)
    (h : is_cell_in_added_ranges cfg r c = true) :
    is_cell_ignored cfg ws_sample ws_imr r c = false ∧
    is_cell_in_ignored_range cfg ws_sample r c = false ∧
    is_cell_in_ignored_range cfg ws_imr r c = false := by
  refine ⟨?_, ?_, ?_⟩ <;> simp [is_cell_ignored, is_cell_in_ignored_range, h]

/-- The fallback sweep routes a force-included coordinate's issues to the
primary list only. -/
theorem fallback_step_forced (cfg : Config) (ws_sample ws_imr : Sheet)
    (uts : List Rect) (st : ScanState) (rc : Nat × Nat)
    (h : is_cell_in_added_ranges cfg rc.1 rc.2 = true) :
    (fallback_step cfg ws_sample ws_imr uts st rc).ignored = st.ignored ∧
    (fallback_step cfg ws_sample ws_imr uts st rc).ignoredCount = st.ignoredCount := by
  simp only [fallback_step]
  by_cases hA : in_union_tables uts rc.1 rc.2 = true
  · rw [if_pos hA]; exact ⟨rfl, rfl⟩
  rw [if_neg hA]
  by_cases hB : is_cell_in_ignored_ranges cfg rc.1 rc.2 = true
  · rw [if_pos hB]; exact ⟨rfl, rfl⟩
  rw [if_neg hB]
  by_cases hC : ((get_effective_value ws_sample rc.1 rc.2).isNone &&
      (get_effective_value ws_imr rc.1 rc.2).isNone) = true
  · rw [if_pos hC]; exact ⟨rfl, rfl⟩
  rw [if_neg hC]
  by_cases hD : canonical_pair_for ws_sample ws_imr rc.1 rc.2 ∈ st.seenPairs
  · rw [if_pos hD]; exact ⟨rfl, rfl⟩
  rw [if_neg hD]
  by_cases hE : (!is_top_left_position ws_sample ws_imr rc.1 rc.2) = true
  · rw [if_pos hE]; exact ⟨rfl, rfl⟩
  rw [if_neg hE]
  have hcls : is_cell_ignored cfg ws_sample ws_imr rc.1 rc.2 = false :=
    (forced_not_ignored cfg ws_sample ws_imr rc.1 rc.2 h).1
  rw [hcls]
  exact route_issues_primary _ _ _

/-- The key/value rightward scan over force-included columns routes issues
to the primary list only. -/
theorem kv_scan_right_forced (cfg : Config) (ws_sample ws_imr : Sheet)
    (uts : List Rect) (src_is_sample : Bool) (key_text : Option XlValue) (r : Nat) :
    ∀ (ccs : List Nat) (st : ScanState),
      (∀ cc ∈ ccs, is_cell_in_added_ranges cfg r cc = true) →
      (kv_scan_right cfg ws_sample ws_imr uts src_is_sample key_text r ccs st).ignored =
        st.ignored ∧
      (kv_scan_right cfg ws_sample ws_imr uts src_is_sample key_text r ccs st).ignoredCount =
        st.ignoredCount := by
  intro ccs
  induction ccs with
  | nil => intro st _; exact ⟨rfl, rfl⟩
  | cons cc rest ih =>
    intro st hforce
    have hrest : ∀ c ∈ rest, is_cell_in_added_ranges cfg r c = true :=
      fun c hc => hforce c (List.mem_cons_of_mem cc hc)
    simp only [kv_scan_right]
    by_cases hA : in_union_tables uts r cc = true
    · rw [if_pos hA]; exact ⟨rfl, rfl⟩
    rw [if_neg hA]
    by_cases hB : is_cell_in_ignored_ranges cfg r cc = true
    · rw [if_pos hB]; exact ih st hrest
    rw [if_neg hB]
    by_cases hC : looks_like_key (get_effective_value
        (if src_is_sample then ws_sample else ws_imr) r cc) = true
    · rw [if_pos hC]; exact ⟨rfl, rfl⟩
    rw [if_neg hC]
    by_cases hD : canonical_pair_for ws_sample ws_imr r cc ∈ st.seenPairs
    · rw [if_pos hD]; exact ih st hrest
    rw [if_neg hD]
    by_cases hE : (!is_top_left_position ws_sample ws_imr r cc) = true
    · rw [if_pos hE]; exact ih st hrest
    rw [if_neg hE]
    by_cases hF : ((get_effective_value (if src_is_sample then ws_sample else ws_imr) r cc).isNone &&
        (get_effective_value (if src_is_sample then ws_imr else ws_sample) r cc).isNone) = true
    · rw [if_pos hF]
      exact ih _ hrest
    rw [if_neg hF]
    have hcls : is_cell_ignored cfg ws_sample ws_imr r cc = false :=
      (forced_not_ignored cfg ws_sample ws_imr r cc
        (hforce cc (List.mem_cons_self cc rest))).1
    rw [hcls]
    exact route_issues_primary _ _ _

/-- C3 amended: force-include takes precedence over the color rules in the
per-cell classification --- `is_cell_ignored` and each sheet's color rule
classify every force-included coordinate as not ignored --- and the fallback
and key/value passes, which route by the compared coordinate's own
classification, therefore send a force-included coordinate's issues to the
primary list, never the ignored bucket.  The table pass keeps two
exceptions, exhibited by the counterexample: a coordinate lying in an
ignored range is skipped outright when both paired-column coordinates are in
ignored ranges, even if force-included; and the table pass routes by the OR
of both paired-column classifications, so a force-included column paired
with an ignored-range column has its issues routed to the ignored bucket. -/
theorem claim_C3_theorem :
    (∀ (cfg : Config) (ws_sample ws_imr : Sheet) (r c : Nat),
      is_cell_in_added_ranges cfg r c = true →
      is_cell_ignored cfg ws_sample ws_imr r c = false ∧
      is_cell_in_ignored_range cfg ws_sample r c = false ∧
      is_cell_in_ignored_range cfg ws_imr r c = false) ∧
    (∀ (cfg : Config) (ws_sample ws_imr : Sheet) (uts : List Rect) (st : ScanState)
      (rc : Nat × Nat), is_cell_in_added_ranges cfg rc.1 rc.2 = true →
      (fallback_step cfg ws_sample ws_imr uts st rc).ignored = st.ignored ∧
      (fallback_step cfg ws_sample ws_imr uts st rc).ignoredCount = st.ignoredCount) ∧
    (∀ (cfg : Config) (ws_sample ws_imr : Sheet) (uts : List Rect) (src_is_sample : Bool)
      (key_text : Option XlValue) (r : Nat) (ccs : List Nat) (st : ScanState),
      (∀ cc ∈ ccs, is_cell_in_added_ranges cfg r cc = true) →
      (kv_scan_right cfg ws_sample ws_imr uts src_is_sample key_text r ccs st).ignored =
        st.ignored ∧
      (kv_scan_right cfg ws_sample ws_imr uts src_is_sample key_text r ccs st).ignoredCount =
        st.ignoredCount) :=
  ⟨forced_not_ignored,
   fun cfg ws_sample ws_imr uts st rc h =>
     fallback_step_forced cfg ws_sample ws_imr uts st rc h,
   fun cfg ws_sample ws_imr uts src_is_sample key_text r ccs st h =>
     kv_scan_right_forced cfg ws_sample ws_imr uts src_is_sample key_text r ccs st h⟩

/-- C3 witness: the three parts at the concrete force-included cell:
classification, fallback routing, and key/value routing. -/
theorem claim_C3_witness :
    (is_cell_ignored addOnlyCfg wsOneCellSample wsOneCellImr 1 1 = false ∧
     is_cell_in_ignored_range addOnlyCfg wsOneCellSample 1 1 = false ∧
     is_cell_in_ignored_range addOnlyCfg wsOneCellImr 1 1 = false) ∧
    ((fallback_step addOnlyCfg wsOneCellSample wsOneCellImr [] initScanState (1, 1)).ignored =
      initScanState.ignored ∧
     (fallback_step addOnlyCfg wsOneCellSample wsOneCellImr [] initScanState
        (1, 1)).ignoredCount = initScanState.ignoredCount) ∧
    ((kv_scan_right addOnlyCfg wsOneCellSample wsOneCellImr [] true
        (some (XlValue.str "K")) 1 [1] initScanState).ignored = initScanState.ignored ∧
     (kv_scan_right addOnlyCfg wsOneCellSample wsOneCellImr [] true
        (some (XlValue.str "K")) 1 [1] initScanState).ignoredCount =
      initScanState.ignoredCount) :=
  ⟨claim_C3_theorem.1 addOnlyCfg wsOneCellSample wsOneCellImr 1 1 (by decide),
   claim_C3_theorem.2.1 addOnlyCfg wsOneCellSample wsOneCellImr [] initScanState (1, 1)
     (by decide),
   claim_C3_theorem.2.2 addOnlyCfg wsOneCellSample wsOneCellImr [] true
     (some (XlValue.str "K")) 1 [1] initScanState (by decide)⟩

/-- C5: evaluating the whole per-sheet pipeline on the claim's scenario
("Status", an empty cell, then "OK" versus "FAIL", no tables, no ignore
configuration): exactly one Value Mismatch issue with representations "OK"
and "FAIL" is produced, but its row-key field is the empty string, not
"Status", because the full-grid fallback sweep runs before the key/value
scan and claims the pair first. -/
theorem claim_C5_theorem :
    (runSheet emptyCfg wsStatusSample wsStatusImr).issues =
      [⟨1, 3, some (XlValue.str ""), "", "Value Mismatch", "OK", "FAIL"⟩] ∧
    (runSheet emptyCfg wsStatusSample wsStatusImr).issuesCount = 1 ∧
    (runSheet emptyCfg wsStatusSample wsStatusImr).ignoredCount = 0 := by
  refine ⟨by decide, by decide, by decide⟩

/-- C7 counterexample: on a sheet with borders only at (1,1) and (2,3), the
source's downward growth (which checks the full remaining width of the
sheet) extends the first region to row 2, while growth restricted to the
region's current column span (the claim's reading) stops at row 1, so the
claimed description differs from the code. -/
theorem claim_C7_counterexample :
    find_bordered_tables wsStaggered = [⟨1, 1, 2, 1⟩, ⟨2, 3, 2, 3⟩] ∧
    find_bordered_tables_specreading wsStaggered = [⟨1, 1, 1, 1⟩, ⟨2, 3, 2, 3⟩] ∧
    find_bordered_tables wsStaggered ≠ find_bordered_tables_specreading wsStaggered := by
  refine ⟨by decide, by decide, by decide⟩

/-- C1 counterexample: on identical fully bordered 3x2 tables where column
2's rows 2-3 form one merged range on both sides (top-left values "A" vs
"B"), the table pass reports the single merged-cell equivalence class twice,
once per raw data row it covers, because its dedup key is the raw
(row, sample column, target column) triple. -/
theorem claim_C1_counterexample :
    get_top_left_coords wsMergedSample 3 2 = (2, 2) ∧
    get_top_left_coords wsMergedImr 3 2 = (2, 2) ∧
    (runSheet emptyCfg wsMergedSample wsMergedImr).issues =
      [⟨2, 2, some (XlValue.str "r2"), "H", "Value Mismatch", "A", "B"⟩,
       ⟨3, 2, some (XlValue.str "r3"), "H", "Value Mismatch", "A", "B"⟩] ∧
    (runSheet emptyCfg wsMergedSample wsMergedImr).issuesCount = 2 := by
  refine ⟨by decide, by decide, by decide, by decide⟩

/-- C4 counterexample: with sample header " Total Cost " and target header
"total cost" in a detected table, the headers do pair, but the table pass
reports one Value Mismatch issue for the pair (the stripped texts still
differ in case), contradicting the claim that they pair with no mismatch
issue. -/
theorem claim_C4_counterexample :
    (runSheet emptyCfg wsTotalCostSample wsTotalCostImr).issues =
      [⟨1, 2, some (XlValue.str "Header"), "Total Cost", "Value Mismatch",
        "Total Cost", "total cost"⟩] ∧
    (runSheet emptyCfg wsTotalCostSample wsTotalCostImr).issuesCount = 1 := by
  refine ⟨by decide, by decide⟩

/-- C4 amended: " Total Cost " and "total cost" have similarity 1.0 and are
paired, but the pairing produces one header Value Mismatch issue because the
stripped texts differ; "Qty" and "Amount" score below the threshold and stay
unpaired, giving exactly one missing-in-target and one missing-in-sample
issue; fuzzy pairing requires a score strictly above 0.72 (a pair scoring
exactly 0.72 stays unpaired). -/
theorem claim_C4_theorem :
    header_similarity (some (XlValue.str " Total Cost ")) (some (XlValue.str "total cost")) = 1 ∧
    (pair_columns_order_preserving [("Total Cost", 2)] [("total cost", 2)]).1 =
      [("Total Cost", "total cost")] ∧
    (runSheet emptyCfg wsTotalCostSample wsTotalCostImr).issues =
      [⟨1, 2, some (XlValue.str "Header"), "Total Cost", "Value Mismatch",
        "Total Cost", "total cost"⟩] ∧
    header_similarity (some (XlValue.str "Qty")) (some (XlValue.str "Amount")) <
      similarity_threshold ∧
    (runSheet emptyCfg wsQtySample wsQtyImr).issues =
      [⟨1, 2, some (XlValue.str ""), "Qty", "Missing in report", "Qty", ""⟩,
       ⟨1, 2, some (XlValue.str ""), "Amount", "Missing in sample", "", "Amount"⟩] ∧
    header_similarity (some (XlValue.str "abcdefghixxx")) (some (XlValue.str "abcdefghiyyyy")) =
      similarity_threshold ∧
    (pair_columns_order_preserving [("abcdefghixxx", 2)] [("abcdefghiyyyy", 2)]).1 = [] := by
  refine ⟨by decide, by decide, by decide, by decide, by decide, by decide, by decide⟩

/-- Separation characterization of `rectangles_overlap_or_touch`. -/
theorem touch_eq_false_iff (a b : Rect) :
    rectangles_overlap_or_touch a b = false ↔
      (a.r2 < b.r1 - 1 ∨ b.r2 < a.r1 - 1 ∨ a.c2 < b.c1 - 1 ∨ b.c2 < a.c1 - 1) := by
  unfold rectangles_overlap_or_touch
  split_ifs <;> simp_all

/-- A sweep over `l` that absorbed nothing left the pivot and the list
unchanged and certifies that the pivot touches nothing in `l`. -/
theorem absorb_pass_unchanged (cur : Rect) (l : List Rect)
    (h : (absorb_pass cur l).2.2 = false) :
    (absorb_pass cur l).1 = cur ∧ (absorb_pass cur l).2.1 = l ∧
      ∀ x ∈ l, rectangles_overlap_or_touch cur x = false := by
  induction l generalizing cur with
  | nil => simp [absorb_pass]
  | cons o rest ih =>
    by_cases ht : rectangles_overlap_or_touch cur o = true
    · simp [absorb_pass, ht] at h
    · rw [Bool.not_eq_true] at ht
      simp only [absorb_pass, ht, Bool.false_eq_true, if_false] at h ⊢
      obtain ⟨h1, h2, h3⟩ := ih cur h
      refine ⟨h1, by rw [h2], ?_⟩
      intro x hx
      rcases List.mem_cons.mp hx with hx | hx
      · rw [hx]; exact ht
      · exact h3 x hx

/-- The remainder of an absorb pass never grows, and shrinks strictly when
something was absorbed. -/
theorem absorb_pass_len (cur : Rect) (l : List Rect) :
    (absorb_pass cur l).2.1.length ≤ l.length ∧
      ((absorb_pass cur l).2.2 = true → (absorb_pass cur l).2.1.length < l.length) := by
  induction l generalizing cur with
  | nil => simp [absorb_pass]
  | cons o rest ih =>
    by_cases ht : rectangles_overlap_or_touch cur o = true
    · simp only [absorb_pass, ht, if_true]
      obtain ⟨h1, _⟩ := ih (merge_two_rects cur o)
      exact ⟨Nat.le_succ_of_le h1, fun _ => Nat.lt_succ_of_le h1⟩
    · rw [Bool.not_eq_true] at ht
      simp only [absorb_pass, ht, Bool.false_eq_true, if_false, List.length_cons]
      obtain ⟨h1, h2⟩ := ih cur
      exact ⟨Nat.succ_le_succ h1, fun hc => Nat.succ_lt_succ (h2 hc)⟩

/-- An unchanged sweep (with enough fuel) returns its input, which is then
pairwise non-touching. -/
theorem merge_sweep_unchanged : ∀ (fuel : Nat) (l : List Rect), l.length ≤ fuel →
    (merge_sweep fuel l).2 = false →
    (merge_sweep fuel l).1 = l ∧
      l.Pairwise (fun x y => rectangles_overlap_or_touch x y = false) := by
  intro fuel
  induction fuel with
  | zero =>
    intro l hl _
    rw [Nat.le_zero, List.length_eq_zero] at hl
    subst hl
    simp [merge_sweep]
  | succ fuel ih =>
    intro l hl h
    cases l with
    | nil => simp [merge_sweep]
    | cons r rest =>
      simp only [merge_sweep, Bool.or_eq_false_iff] at h ⊢
      obtain ⟨ha, hs⟩ := h
      obtain ⟨ha1, ha2, ha3⟩ := absorb_pass_unchanged r rest ha
      rw [ha2] at hs
      have hlen : rest.length ≤ fuel := by simpa using hl
      obtain ⟨hs1, hs2⟩ := ih rest hlen hs
      rw [ha2]
      exact ⟨by rw [ha1, hs1], List.Pairwise.cons ha3 hs2⟩

/-- A sweep never grows the list, and shrinks it strictly when it changed. -/
theorem merge_sweep_len : ∀ (fuel : Nat) (l : List Rect), l.length ≤ fuel →
    (merge_sweep fuel l).1.length ≤ l.length ∧
      ((merge_sweep fuel l).2 = true → (merge_sweep fuel l).1.length < l.length) := by
  intro fuel
  induction fuel with
  | zero =>
    intro l hl
    rw [Nat.le_zero, List.length_eq_zero] at hl
    subst hl
    simp [merge_sweep]
  | succ fuel ih =>
    intro l hl
    cases l with
    | nil => simp [merge_sweep]
    | cons r rest =>
      simp only [merge_sweep, List.length_cons]
      obtain ⟨hal, hac⟩ := absorb_pass_len r rest
      have hlen : (absorb_pass r rest).2.1.length ≤ fuel :=
        le_trans hal (by simpa using hl)
      obtain ⟨hs1, hs2⟩ := ih (absorb_pass r rest).2.1 hlen
      constructor
      · exact Nat.succ_le_succ (le_trans hs1 hal)
      · intro hc
        rcases Bool.or_eq_true_iff.mp hc with hc | hc
        · exact Nat.succ_lt_succ (Nat.lt_of_le_of_lt hs1 (hac hc))
        · exact Nat.succ_lt_succ (Nat.lt_of_lt_of_le (hs2 hc) hal)

/-- The merge loop reaches a pairwise non-touching fixed point whenever the
fuel dominates the list length. -/
theorem merge_loop_pairwise : ∀ (fuel : Nat) (l : List Rect), l.length ≤ fuel + 1 →
    (merge_loop fuel l).Pairwise (fun x y => rectangles_overlap_or_touch x y = false) := by
  intro fuel
  induction fuel with
  | zero =>
    intro l hl
    simp only [merge_loop]
    match l, hl with
    | [], _ => exact List.Pairwise.nil
    | [a], _ => exact List.pairwise_singleton _ a
  | succ fuel ih =>
    intro l hl
    simp only [merge_loop]
    split
    · rename_i hle
      match l, hle with
      | [], _ => exact List.Pairwise.nil
      | [a], _ => exact List.pairwise_singleton _ a
    · rename_i hgt
      split
      · rename_i hch
        apply ih
        obtain ⟨_, h2⟩ := merge_sweep_len l.length l le_rfl
        have := h2 hch
        omega
      · rename_i hch
        rw [Bool.not_eq_true] at hch
        obtain ⟨h1, h2⟩ := merge_sweep_unchanged l.length l le_rfl hch
        rw [h1]
        exact h2

/-- C6: a touching pair merges into its bounding union; a pair separated by
at least one full empty row and at least one full empty column stays
distinct; and `merge_rectangles` always reaches a fixed point in which no
two output rectangles overlap or touch. -/
theorem claim_C6_theorem :
    (∀ a b : Rect, rectangles_overlap_or_touch a b = true →
      merge_rectangles [a, b] = [merge_two_rects a b]) ∧
    (∀ a b : Rect, (a.r2 + 1 < b.r1 ∨ b.r2 + 1 < a.r1) →
      (a.c2 + 1 < b.c1 ∨ b.c2 + 1 < a.c1) → merge_rectangles [a, b] = [a, b]) ∧
    (∀ rects : List Rect,
      (merge_rectangles rects).Pairwise
        (fun x y => rectangles_overlap_or_touch x y = false)) := by
  refine ⟨?_, ?_, ?_⟩
  · intro a b h
    simp [merge_rectangles, merge_loop, merge_sweep, absorb_pass, h]
  · intro a b hr hc
    have h : rectangles_overlap_or_touch a b = false := by
      rw [touch_eq_false_iff]
      omega
    simp [merge_rectangles, merge_loop, merge_sweep, absorb_pass, h]
  · intro rects
    exact merge_loop_pairwise rects.length rects (Nat.le_succ_of_le le_rfl)

/-- C6 witness: the three parts at concrete rectangles (a zero-gap adjacent
pair, a fully separated pair, and a mixed list). -/
theorem claim_C6_witness :
    merge_rectangles [⟨1, 1, 2, 2⟩, ⟨2, 3, 4, 4⟩] =
      [merge_two_rects ⟨1, 1, 2, 2⟩ ⟨2, 3, 4, 4⟩] ∧
    merge_rectangles [⟨1, 1, 2, 2⟩, ⟨4, 4, 5, 5⟩] = [⟨1, 1, 2, 2⟩, ⟨4, 4, 5, 5⟩] ∧
    (merge_rectangles [⟨1, 1, 3, 3⟩, ⟨2, 2, 4, 4⟩, ⟨10, 10, 11, 11⟩]).Pairwise
      (fun x y => rectangles_overlap_or_touch x y = false) :=
  ⟨claim_C6_theorem.1 ⟨1, 1, 2, 2⟩ ⟨2, 3, 4, 4⟩ (by decide),
   claim_C6_theorem.2.1 ⟨1, 1, 2, 2⟩ ⟨4, 4, 5, 5⟩ (by decide) (by decide),
   claim_C6_theorem.2.2 [⟨1, 1, 3, 3⟩, ⟨2, 2, 4, 4⟩, ⟨10, 10, 11, 11⟩]⟩

/-- Downward growth never shrinks. -/
theorem grow_end_row_ge (ws : Sheet) (j : Nat) :
    ∀ fuel e, e ≤ grow_end_row ws j fuel e := by
  intro fuel
  induction fuel with
  | zero => intro e; simp [grow_end_row]
  | succ fuel ih =>
    intro e
    simp only [grow_end_row]
    split
    · exact le_trans (Nat.le_succ e) (ih (e + 1))
    · exact le_rfl

/-- Downward growth stays within the sheet. -/
theorem grow_end_row_le_max (ws : Sheet) (j : Nat) :
    ∀ fuel e, e ≤ ws.maxRow → grow_end_row ws j fuel e ≤ ws.maxRow := by
  intro fuel
  induction fuel with
  | zero => intro e he; simpa [grow_end_row] using he
  | succ fuel ih =>
    intro e he
    simp only [grow_end_row]
    split
    · rename_i hc
      rw [Bool.and_eq_true, decide_eq_true_eq] at hc
      exact ih (e + 1) hc.1
    · exact he

/-- Every row strictly between the seed and the grown end row carried a
border somewhere in columns `j..max_col`. -/
theorem grow_end_row_rows (ws : Sheet) (j : Nat) :
    ∀ fuel e r, e < r → r ≤ grow_end_row ws j fuel e →
      (List.range' j (ws.maxCol + 1 - j)).any (fun k => has_border ws r k) = true := by
  intro fuel
  induction fuel with
  | zero =>
    intro e r h1 h2
    simp only [grow_end_row] at h2
    omega
  | succ fuel ih =>
    intro e r h1 h2
    simp only [grow_end_row] at h2
    by_cases hc : (decide (e + 1 ≤ ws.maxRow) &&
        (List.range' j (ws.maxCol + 1 - j)).any (fun k => has_border ws (e + 1) k)) = true
    · rw [if_pos hc] at h2
      rw [Bool.and_eq_true] at hc
      rcases Nat.lt_or_ge (e + 1) r with hr | hr
      · exact ih (e + 1) r hr h2
      · have : r = e + 1 := by omega
        rw [this]
        exact hc.2
    · rw [if_neg hc] at h2
      omega

/-- When the loop stops, either the sheet is exhausted or the next row has
no border in columns `j..max_col`. -/
theorem grow_end_row_stop (ws : Sheet) (j : Nat) :
    ∀ fuel e, e ≤ ws.maxRow → ws.maxRow ≤ fuel + e →
      grow_end_row ws j fuel e = ws.maxRow ∨
        (List.range' j (ws.maxCol + 1 - j)).any
          (fun k => has_border ws (grow_end_row ws j fuel e + 1) k) = false := by
  intro fuel
  induction fuel with
  | zero =>
    intro e he hf
    simp only [grow_end_row]
    omega
  | succ fuel ih =>
    intro e he hf
    simp only [grow_end_row]
    by_cases hc : (decide (e + 1 ≤ ws.maxRow) &&
        (List.range' j (ws.maxCol + 1 - j)).any (fun k => has_border ws (e + 1) k)) = true
    · rw [if_pos hc]
      rw [Bool.and_eq_true, decide_eq_true_eq] at hc
      exact ih (e + 1) hc.1 (by omega)
    · rw [if_neg hc]
      rw [Bool.and_eq_true, decide_eq_true_eq] at hc
      by_cases hm : e = ws.maxRow
      · exact Or.inl hm
      · refine Or.inr ?_
        have h1 : e + 1 ≤ ws.maxRow := by omega
        rcases Bool.eq_false_or_eq_true
          ((List.range' j (ws.maxCol + 1 - j)).any (fun k => has_border ws (e + 1) k)) with hb | hb
        · exact absurd ⟨h1, hb⟩ hc
        · exact hb

/-- Rightward growth never shrinks. -/
theorem grow_end_col_ge (ws : Sheet) (i end_row : Nat) :
    ∀ fuel e, e ≤ grow_end_col ws i end_row fuel e := by
  intro fuel
  induction fuel with
  | zero => intro e; simp [grow_end_col]
  | succ fuel ih =>
    intro e
    simp only [grow_end_col]
    split
    · exact le_trans (Nat.le_succ e) (ih (e + 1))
    · exact le_rfl

/-- Rightward growth stays within the sheet. -/
theorem grow_end_col_le_max (ws : Sheet) (i end_row : Nat) :
    ∀ fuel e, e ≤ ws.maxCol → grow_end_col ws i end_row fuel e ≤ ws.maxCol := by
  intro fuel
  induction fuel with
  | zero => intro e he; simpa [grow_end_col] using he
  | succ fuel ih =>
    intro e he
    simp only [grow_end_col]
    split
    · rename_i hc
      rw [Bool.and_eq_true, decide_eq_true_eq] at hc
      exact ih (e + 1) hc.1
    · exact he

/-- Every column strictly between the seed and the grown end column carried
a border somewhere in rows `i..end_row`. -/
theorem grow_end_col_cols (ws : Sheet) (i end_row : Nat) :
    ∀ fuel e c, e < c → c ≤ grow_end_col ws i end_row fuel e →
      (List.range' i (end_row + 1 - i)).any (fun k => has_border ws k c) = true := by
  intro fuel
  induction fuel with
  | zero =>
    intro e c h1 h2
    simp only [grow_end_col] at h2
    omega
  | succ fuel ih =>
    intro e c h1 h2
    simp only [grow_end_col] at h2
    by_cases hc : (decide (e + 1 ≤ ws.maxCol) &&
        (List.range' i (end_row + 1 - i)).any (fun k => has_border ws k (e + 1))) = true
    · rw [if_pos hc] at h2
      rw [Bool.and_eq_true] at hc
      rcases Nat.lt_or_ge (e + 1) c with hr | hr
      · exact ih (e + 1) c hr h2
      · have : c = e + 1 := by omega
        rw [this]
        exact hc.2
    · rw [if_neg hc] at h2
      omega

/-- When the rightward loop stops, either the sheet is exhausted or the next
column has no border in rows `i..end_row`. -/
theorem grow_end_col_stop (ws : Sheet) (i end_row : Nat) :
    ∀ fuel e, e ≤ ws.maxCol → ws.maxCol ≤ fuel + e →
      grow_end_col ws i end_row fuel e = ws.maxCol ∨
        (List.range' i (end_row + 1 - i)).any
          (fun k => has_border ws k (grow_end_col ws i end_row fuel e + 1)) = false := by
  intro fuel
  induction fuel with
  | zero =>
    intro e he hf
    simp only [grow_end_col]
    omega
  | succ fuel ih =>
    intro e he hf
    simp only [grow_end_col]
    by_cases hc : (decide (e + 1 ≤ ws.maxCol) &&
        (List.range' i (end_row + 1 - i)).any (fun k => has_border ws k (e + 1))) = true
    · rw [if_pos hc]
      rw [Bool.and_eq_true, decide_eq_true_eq] at hc
      exact ih (e + 1) hc.1 (by omega)
    · rw [if_neg hc]
      rw [Bool.and_eq_true, decide_eq_true_eq] at hc
      by_cases hm : e = ws.maxCol
      · exact Or.inl hm
      · refine Or.inr ?_
        have h1 : e + 1 ≤ ws.maxCol := by omega
        rcases Bool.eq_false_or_eq_true
          ((List.range' i (end_row + 1 - i)).any (fun k => has_border ws k (e + 1))) with hb | hb
        · exact absurd ⟨h1, hb⟩ hc
        · exact hb

/-- Bounds of the coordinates enumerated by `rect_cells`. -/
theorem rect_cells_mem (t : Rect) (ij : Nat × Nat) (h : ij ∈ rect_cells t) :
    t.r1 ≤ ij.1 ∧ ij.1 ≤ t.r2 ∧ t.c1 ≤ ij.2 ∧ ij.2 ≤ t.c2 := by
  simp only [rect_cells, List.mem_flatMap, List.mem_map] at h
  obtain ⟨r, hr, c, hc, hij⟩ := h
  rw [List.mem_range'_1] at hr hc
  rw [← hij]
  dsimp
  omega

/-- Every emitted table is the greedy growth of an in-range bordered seed. -/
theorem fbt_tables_shape (ws : Sheet) :
    ∀ t ∈ find_bordered_tables ws,
      ∃ i j, 1 ≤ i ∧ i ≤ ws.maxRow ∧ 1 ≤ j ∧ j ≤ ws.maxCol ∧ has_border ws i j = true ∧
        t = ⟨i, j, grow_end_row ws j ws.maxRow i,
             grow_end_col ws i (grow_end_row ws j ws.maxRow i) ws.maxCol j⟩ := by
  have main : ∀ (l : List (Nat × Nat)) (acc : List (Nat × Nat) × List Rect),
      (∀ ij ∈ l, 1 ≤ ij.1 ∧ ij.1 ≤ ws.maxRow ∧ 1 ≤ ij.2 ∧ ij.2 ≤ ws.maxCol) →
      (∀ t ∈ acc.2, ∃ i j, 1 ≤ i ∧ i ≤ ws.maxRow ∧ 1 ≤ j ∧ j ≤ ws.maxCol ∧
        has_border ws i j = true ∧
        t = ⟨i, j, grow_end_row ws j ws.maxRow i,
             grow_end_col ws i (grow_end_row ws j ws.maxRow i) ws.maxCol j⟩) →
      ∀ t ∈ (l.foldl (fbt_step ws) acc).2, ∃ i j, 1 ≤ i ∧ i ≤ ws.maxRow ∧ 1 ≤ j ∧
        j ≤ ws.maxCol ∧ has_border ws i j = true ∧
        t = ⟨i, j, grow_end_row ws j ws.maxRow i,
             grow_end_col ws i (grow_end_row ws j ws.maxRow i) ws.maxCol j⟩ := by
    intro l
    induction l with
    | nil => intro acc _ hacc; simpa using hacc
    | cons ij rest ih =>
      intro acc hl hacc
      simp only [List.foldl_cons]
      apply ih
      · intro x hx; exact hl x (List.mem_cons_of_mem ij hx)
      · intro t ht
        unfold fbt_step at ht
        split at ht
        · exact hacc t ht
        · split at ht
          · rename_i hvis hb
            simp only [List.mem_append, List.mem_singleton] at ht
            rcases ht with ht | ht
            · exact hacc t ht
            · obtain ⟨b1, b2, b3, b4⟩ := hl ij (List.mem_cons_self ij rest)
              exact ⟨ij.1, ij.2, b1, b2, b3, b4, hb, ht⟩
          · exact hacc t ht
  intro t ht
  unfold find_bordered_tables at ht
  refine main _ ([], []) ?_ (by simp) t ht
  intro ij hij
  have := rect_cells_mem ⟨1, 1, ws.maxRow, ws.maxCol⟩ ij hij
  exact ⟨this.1, this.2.1, this.2.2.1, this.2.2.2⟩

/-- C7 amended: table detection scans row-major skipping visited cells;
from each unvisited bordered seed (i, j), `end_row` is extended downward
while the next row carries a border anywhere in columns j through the
sheet's last column (the full remaining width, not just the region's current
column span), then `end_col` is extended rightward while the next column
carries a border in the already-grown rows i..end_row; the resulting
rectangle is marked visited and emitted.  Stated as the seed/maximality
characterization of every emitted rectangle. -/
theorem claim_C7_theorem (ws : Sheet) (t : Rect) (ht : t ∈ find_bordered_tables ws) :
    has_border ws t.r1 t.c1 = true ∧
    1 ≤ t.r1 ∧ t.r1 ≤ t.r2 ∧ t.r2 ≤ ws.maxRow ∧
    1 ≤ t.c1 ∧ t.c1 ≤ t.c2 ∧ t.c2 ≤ ws.maxCol ∧
    (∀ r, t.r1 < r → r ≤ t.r2 →
      ∃ k, t.c1 ≤ k ∧ k ≤ ws.maxCol ∧ has_border ws r k = true) ∧
    (t.r2 = ws.maxRow ∨
      ∀ k, t.c1 ≤ k → k ≤ ws.maxCol → has_border ws (t.r2 + 1) k = false) ∧
    (∀ c, t.c1 < c → c ≤ t.c2 →
      ∃ k, t.r1 ≤ k ∧ k ≤ t.r2 ∧ has_border ws k c = true) ∧
    (t.c2 = ws.maxCol ∨
      ∀ k, t.r1 ≤ k → k ≤ t.r2 → has_border ws k (t.c2 + 1) = false) := by
  obtain ⟨i, j, b1, b2, b3, b4, hb, rfl⟩ := fbt_tables_shape ws t ht
  dsimp only
  have hrge := grow_end_row_ge ws j ws.maxRow i
  have hrle := grow_end_row_le_max ws j ws.maxRow i b2
  have hcge := grow_end_col_ge ws i (grow_end_row ws j ws.maxRow i) ws.maxCol j
  have hcle := grow_end_col_le_max ws i (grow_end_row ws j ws.maxRow i) ws.maxCol j b4
  refine ⟨hb, b1, hrge, hrle, b3, hcge, hcle, ?_, ?_, ?_, ?_⟩
  · intro r h1 h2
    have h := grow_end_row_rows ws j ws.maxRow i r h1 h2
    rw [List.any_eq_true] at h
    obtain ⟨k, hk, hbk⟩ := h
    rw [List.mem_range'_1] at hk
    exact ⟨k, hk.1, by omega, hbk⟩
  · rcases grow_end_row_stop ws j ws.maxRow i b2 (by omega) with h | h
    · exact Or.inl h
    · refine Or.inr ?_
      intro k hk1 hk2
      rw [List.any_eq_false] at h
      have := h k (by rw [List.mem_range'_1]; omega)
      simpa using this
  · intro c h1 h2
    have h := grow_end_col_cols ws i (grow_end_row ws j ws.maxRow i) ws.maxCol j c h1 h2
    rw [List.any_eq_true] at h
    obtain ⟨k, hk, hbk⟩ := h
    rw [List.mem_range'_1] at hk
    exact ⟨k, hk.1, by omega, hbk⟩
  · rcases grow_end_col_stop ws i (grow_end_row ws j ws.maxRow i) ws.maxCol j b4 (by omega)
      with h | h
    · exact Or.inl h
    · refine Or.inr ?_
      intro k hk1 hk2
      rw [List.any_eq_false] at h
      have := h k (by rw [List.mem_range'_1]; omega)
      simpa using this

/-- C7 witness: the characterization applied to the concrete staggered-border
sheet's first detected table. -/
theorem claim_C7_witness :
    (⟨1, 1, 2, 1⟩ : Rect) ∈ find_bordered_tables wsStaggered ∧
    has_border wsStaggered 1 1 = true :=
  ⟨by decide, (claim_C7_theorem wsStaggered ⟨1, 1, 2, 1⟩ (by decide)).1⟩

/-- Fold preservation of a predicate, with access to list membership. -/
theorem foldl_inv_mem {α β : Type} (P : β → Prop) :
    ∀ (l : List α) (f : β → α → β) (st : β),
      (∀ st x, x ∈ l → P st → P (f st x)) → P st → P (l.foldl f st) := by
  intro l
  induction l with
  | nil => intro f st _ h; simpa using h
  | cons x xs ih =>
    intro f st hstep h
    simp only [List.foldl_cons]
    exact ih f (f st x) (fun st' y hy => hstep st' y (List.mem_cons_of_mem x hy))
      (hstep st x (List.mem_cons_self x xs) h)

/-- Issue routing touches only the report lists and counters. -/
theorem route_issues_fields (isIgn : Bool) (mk : Issue → IssueRecord) :
    ∀ (issues : List Issue) (st : ScanState),
      (route_issues isIgn mk issues st).seenPairs = st.seenPairs ∧
      (route_issues isIgn mk issues st).claimLog = st.claimLog ∧
      (route_issues isIgn mk issues st).processedCells = st.processedCells := by
  intro issues
  induction issues with
  | nil => intro st; exact ⟨rfl, rfl, rfl⟩
  | cons i is ih =>
    intro st
    simp only [route_issues, List.foldl_cons]
    cases isIgn
    · simpa using ih _
    · simpa using ih _

/-- Claiming a fresh pair preserves dedup soundness. -/
theorem claim_log_ok_insert (st : ScanState) (p : CanonPair) (hp : p ∉ st.seenPairs)
    (h : claim_log_ok st) :
    claim_log_ok { st with seenPairs := st.seenPairs ++ [p],
                           claimLog := st.claimLog ++ [p] } := by
  constructor
  · rw [List.nodup_append]
    refine ⟨h.1, List.nodup_singleton p, ?_⟩
    intro q hq hq'
    rw [List.mem_singleton] at hq'
    subst hq'
    exact hp (h.2 q hq)
  · intro q hq
    rcases List.mem_append.mp hq with hq | hq
    · exact List.mem_append_left _ (h.2 q hq)
    · exact List.mem_append_right _ hq

/-- Routing preserves dedup soundness (it never touches the pair sets). -/
theorem claim_log_ok_route (isIgn : Bool) (mk : Issue → IssueRecord)
    (issues : List Issue) (st : ScanState) (h : claim_log_ok st) :
    claim_log_ok (route_issues isIgn mk issues st) := by
  obtain ⟨h1, h2, _⟩ := route_issues_fields isIgn mk issues st
  constructor
  · rw [h2]; exact h.1
  · intro p hp
    rw [h2] at hp
    rw [h1]
    exact h.2 p hp

/-- Folds whose step only touches the report fields keep the pair sets. -/
theorem foldl_keep {α : Type} (g : ScanState → α → ScanState)
    (hg : ∀ st x, (g st x).seenPairs = st.seenPairs ∧ (g st x).claimLog = st.claimLog) :
    ∀ (l : List α) (st : ScanState),
      (l.foldl g st).seenPairs = st.seenPairs ∧ (l.foldl g st).claimLog = st.claimLog := by
  intro l
  induction l with
  | nil => intro st; exact ⟨rfl, rfl⟩
  | cons x xs ih =>
    intro st
    simp only [List.foldl_cons]
    obtain ⟨a1, a2⟩ := hg st x
    obtain ⟨b1, b2⟩ := ih (g st x)
    exact ⟨b1.trans a1, b2.trans a2⟩

/-- The same, for the table pass's (seen_row_pairs, state) accumulator. -/
theorem foldl_keep2 {α : Type}
    (g : List (Nat × Nat × Nat) × ScanState → α → List (Nat × Nat × Nat) × ScanState)
    (hg : ∀ acc x, (g acc x).2.seenPairs = acc.2.seenPairs ∧
      (g acc x).2.claimLog = acc.2.claimLog) :
    ∀ (l : List α) (acc : List (Nat × Nat × Nat) × ScanState),
      (l.foldl g acc).2.seenPairs = acc.2.seenPairs ∧
      (l.foldl g acc).2.claimLog = acc.2.claimLog := by
  intro l
  induction l with
  | nil => intro acc; exact ⟨rfl, rfl⟩
  | cons x xs ih =>
    intro acc
    simp only [List.foldl_cons]
    obtain ⟨a1, a2⟩ := hg acc x
    obtain ⟨b1, b2⟩ := ih (g acc x)
    exact ⟨b1.trans a1, b2.trans a2⟩

/-- The table pass's paired-column step never touches the pair sets. -/
theorem table_pair_step_fields (cfg : Config) (ws_sample ws_imr : Sheet)
    (hsm him : List (String × Nat)) (rh : Option XlValue) (r : Nat)
    (acc : List (Nat × Nat × Nat) × ScanState) (p : String × String) :
    (table_pair_step cfg ws_sample ws_imr hsm him rh r acc p).2.seenPairs =
      acc.2.seenPairs ∧
    (table_pair_step cfg ws_sample ws_imr hsm him rh r acc p).2.claimLog =
      acc.2.claimLog := by
  simp only [table_pair_step]
  by_cases h1 : (is_cell_in_ignored_ranges cfg r (dictGet hsm p.1) &&
      is_cell_in_ignored_ranges cfg r (dictGet him p.2)) = true
  · rw [if_pos h1]; exact ⟨rfl, rfl⟩
  · rw [if_neg h1]
    by_cases h2 : (r, dictGet hsm p.1, dictGet him p.2) ∈ acc.1
    · rw [if_pos h2]; exact ⟨rfl, rfl⟩
    · rw [if_neg h2]
      obtain ⟨f1, f2, _⟩ := route_issues_fields _ _ _ acc.2
      exact ⟨f1, f2⟩

/-- The table pass's header-issue block never touches the pair sets. -/
theorem table_header_issues_fields (t : Rect) (hsm him : List (String × Nat))
    (paired : List (String × String)) (mi ms : List String) (st : ScanState) :
    (table_header_issues t hsm him paired mi ms st).seenPairs = st.seenPairs ∧
    (table_header_issues t hsm him paired mi ms st).claimLog = st.claimLog := by
  unfold table_header_issues
  obtain ⟨a1, a2⟩ := foldl_keep (table_hdr_mismatch_step t hsm)
    (fun st x => by unfold table_hdr_mismatch_step; split <;> exact ⟨rfl, rfl⟩) paired st
  obtain ⟨b1, b2⟩ := foldl_keep (table_hdr_missing_imr_step t hsm)
    (fun st x => ⟨rfl, rfl⟩) mi (paired.foldl (table_hdr_mismatch_step t hsm) st)
  obtain ⟨c1, c2⟩ := foldl_keep (table_hdr_missing_sample_step t him)
    (fun st x => ⟨rfl, rfl⟩) ms
    (mi.foldl (table_hdr_missing_imr_step t hsm)
      (paired.foldl (table_hdr_mismatch_step t hsm) st))
  exact ⟨(c1.trans b1).trans a1, (c2.trans b2).trans a2⟩

/-- A whole table region of the table pass never touches the pair sets. -/
theorem table_step_fields (cfg : Config) (ws_sample ws_imr : Sheet)
    (st : ScanState) (t : Rect) :
    (table_step cfg ws_sample ws_imr st t).seenPairs = st.seenPairs ∧
    (table_step cfg ws_sample ws_imr st t).claimLog = st.claimLog := by
  unfold table_step
  have hrows := foldl_keep2
    (table_row_step cfg ws_sample ws_imr (header_maps ws_sample ws_imr t).1
      (header_maps ws_sample ws_imr t).2 t
      (pair_columns_order_preserving (header_maps ws_sample ws_imr t).1
        (header_maps ws_sample ws_imr t).2).1)
    (fun acc r => by
      unfold table_row_step
      exact foldl_keep2 _ (fun acc' p => table_pair_step_fields cfg ws_sample ws_imr _ _ _ r acc' p) _ acc)
    (List.range' (t.r1 + 1) (t.r2 - t.r1))
    ([], table_header_issues t (header_maps ws_sample ws_imr t).1
      (header_maps ws_sample ws_imr t).2
      (pair_columns_order_preserving (header_maps ws_sample ws_imr t).1
        (header_maps ws_sample ws_imr t).2).1
      (pair_columns_order_preserving (header_maps ws_sample ws_imr t).1
        (header_maps ws_sample ws_imr t).2).2.1
      (pair_columns_order_preserving (header_maps ws_sample ws_imr t).1
        (header_maps ws_sample ws_imr t).2).2.2 st)
  have hhdr := table_header_issues_fields t (header_maps ws_sample ws_imr t).1
    (header_maps ws_sample ws_imr t).2
    (pair_columns_order_preserving (header_maps ws_sample ws_imr t).1
      (header_maps ws_sample ws_imr t).2).1
    (pair_columns_order_preserving (header_maps ws_sample ws_imr t).1
      (header_maps ws_sample ws_imr t).2).2.1
    (pair_columns_order_preserving (header_maps ws_sample ws_imr t).1
      (header_maps ws_sample ws_imr t).2).2.2 st
  exact ⟨hrows.1.trans hhdr.1, hrows.2.trans hhdr.2⟩

/-- The fallback sweep preserves dedup soundness. -/
theorem fallback_step_ok (cfg : Config) (ws_sample ws_imr : Sheet)
    (union_tables : List Rect) (st : ScanState) (rc : Nat × Nat)
    (h : claim_log_ok st) :
    claim_log_ok (fallback_step cfg ws_sample ws_imr union_tables st rc) := by
  simp only [fallback_step]
  by_cases hA : in_union_tables union_tables rc.1 rc.2 = true
  · rw [if_pos hA]; exact h
  rw [if_neg hA]
  by_cases hB : is_cell_in_ignored_ranges cfg rc.1 rc.2 = true
  · rw [if_pos hB]; exact h
  rw [if_neg hB]
  by_cases hC : ((get_effective_value ws_sample rc.1 rc.2).isNone &&
      (get_effective_value ws_imr rc.1 rc.2).isNone) = true
  · rw [if_pos hC]; exact h
  rw [if_neg hC]
  by_cases hD : canonical_pair_for ws_sample ws_imr rc.1 rc.2 ∈ st.seenPairs
  · rw [if_pos hD]; exact h
  rw [if_neg hD]
  by_cases hE : (!is_top_left_position ws_sample ws_imr rc.1 rc.2) = true
  · rw [if_pos hE]; exact h
  rw [if_neg hE]
  exact claim_log_ok_route _ _ _ _ (claim_log_ok_insert st _ hD h)

/-- Updating the processed-cells set preserves dedup soundness. -/
theorem claim_log_ok_processed (st : ScanState) (l : List (Nat × Nat))
    (h : claim_log_ok st) : claim_log_ok { st with processedCells := l } := h

/-- The rightward key/value scan preserves dedup soundness. -/
theorem kv_scan_right_ok (cfg : Config) (ws_sample ws_imr : Sheet)
    (union_tables : List Rect) (src_is_sample : Bool) (key_text : Option XlValue)
    (r : Nat) :
    ∀ (ccs : List Nat) (st : ScanState), claim_log_ok st →
      claim_log_ok (kv_scan_right cfg ws_sample ws_imr union_tables src_is_sample
        key_text r ccs st) := by
  intro ccs
  induction ccs with
  | nil => intro st h; simpa [kv_scan_right] using h
  | cons cc rest ih =>
    intro st h
    simp only [kv_scan_right]
    by_cases hA : in_union_tables union_tables r cc = true
    · rw [if_pos hA]; exact h
    rw [if_neg hA]
    by_cases hB : is_cell_in_ignored_ranges cfg r cc = true
    · rw [if_pos hB]; exact ih st h
    rw [if_neg hB]
    by_cases hC : looks_like_key (get_effective_value
        (if src_is_sample then ws_sample else ws_imr) r cc) = true
    · rw [if_pos hC]; exact h
    rw [if_neg hC]
    by_cases hD : canonical_pair_for ws_sample ws_imr r cc ∈ st.seenPairs
    · rw [if_pos hD]; exact ih st h
    rw [if_neg hD]
    by_cases hE : (!is_top_left_position ws_sample ws_imr r cc) = true
    · rw [if_pos hE]; exact ih st h
    rw [if_neg hE]
    have hclaim := claim_log_ok_insert st _ hD h
    by_cases hF : ((get_effective_value (if src_is_sample then ws_sample else ws_imr) r cc).isNone &&
        (get_effective_value (if src_is_sample then ws_imr else ws_sample) r cc).isNone) = true
    · rw [if_pos hF]; exact ih _ hclaim
    rw [if_neg hF]
    apply claim_log_ok_processed
    apply claim_log_ok_route
    exact hclaim

/-- The key/value pass's cell step preserves dedup soundness. -/
theorem kv_cell_step_ok (cfg : Config) (ws_sample ws_imr : Sheet)
    (union_tables : List Rect) (max_col_union : Nat) (src_is_sample : Bool)
    (st : ScanState) (rc : Nat × Nat) (h : claim_log_ok st) :
    claim_log_ok (kv_cell_step cfg ws_sample ws_imr union_tables max_col_union
      src_is_sample st rc) := by
  simp only [kv_cell_step]
  by_cases hA : (in_union_tables union_tables rc.1 rc.2 ||
      decide ((rc.1, rc.2) ∈ st.processedCells)) = true
  · rw [if_pos hA]; exact h
  rw [if_neg hA]
  by_cases hB : (!looks_like_key (get_effective_value
      (if src_is_sample then ws_sample else ws_imr) rc.1 rc.2)) = true
  · rw [if_pos hB]; exact h
  rw [if_neg hB]
  apply claim_log_ok_processed
  exact kv_scan_right_ok cfg ws_sample ws_imr union_tables src_is_sample
    _ rc.1 (List.range' (rc.2 + 1) (max_col_union - rc.2)) st h

/-- C1 amended: the table pass deduplicates by raw (row, sample column,
target column) within each region (so one merged class spanning several data
rows yields one record per covered row, as the counterexample shows), and
every CanonicalPair claimed by the fallback or key/value passes is claimed
exactly once: the ghost claim log of a whole sheet run is duplicate-free, so
a pair claimed by an earlier of those passes is skipped by every later
one. -/
theorem claim_C1_theorem (cfg : Config) (ws_sample ws_imr : Sheet) :
    (runSheet cfg ws_sample ws_imr).claimLog.Nodup := by
  suffices h : claim_log_ok (runSheet cfg ws_sample ws_imr) by exact h.1
  unfold runSheet
  dsimp only
  refine foldl_inv_mem claim_log_ok _ _ _ ?_ ?_
  · intro st rc _ h
    exact kv_cell_step_ok _ _ _ _ _ _ st rc h
  refine foldl_inv_mem claim_log_ok _ _ _ ?_ ?_
  · intro st rc _ h
    exact kv_cell_step_ok _ _ _ _ _ _ st rc h
  refine foldl_inv_mem claim_log_ok _ _ _ ?_ ?_
  · intro st rc _ h
    exact fallback_step_ok _ _ _ _ st rc h
  have htable := foldl_inv_mem (fun st : ScanState => st.claimLog = [])
    (merge_rectangles (find_bordered_tables ws_sample ++ find_bordered_tables ws_imr))
    (table_step cfg ws_sample ws_imr) initScanState
    (fun st t _ h => ((table_step_fields cfg ws_sample ws_imr st t).2).trans h) rfl
  rw [claim_log_ok, htable]
  exact ⟨List.nodup_nil, by simp⟩

/-- Comparing a cell pair with itself yields no issues. -/
theorem compare_cell_self (f : CellFormat) (v : Option XlValue) :
    compare_cell f f v v = [] := by
  simp [compare_cell, compare_fonts, compare_alignment, compare_fill, compare_border]

/-- On one sheet against itself, the two header maps coincide. -/
theorem header_maps_self (ws : Sheet) (t : Rect) :
    (header_maps ws ws t).1 = (header_maps ws ws t).2 := by
  unfold header_maps
  refine foldl_inv_mem
    (fun acc : List (String × Nat) × List (String × Nat) => acc.1 = acc.2) _ _ _ ?_ rfl
  intro acc c _ h
  dsimp only
  rw [h]

/-- The exact pass on identical key lists pairs every key with itself: the
accumulated pairs are diagonal, the used set mirrors them, the processed
keys are all paired, and earlier pairs survive. -/
theorem exact_pass_self (ks : List String) :
    ∀ (l : List String) (acc : List (String × String) × List String),
      (∀ p ∈ acc.1, p.1 = p.2) → acc.2 = acc.1.map Prod.snd → (∀ s ∈ l, s ∈ ks) →
      (∀ p ∈ acc.1, p ∈ (l.foldl (exact_pass_step ks) acc).1) ∧
      (∀ p ∈ (l.foldl (exact_pass_step ks) acc).1, p.1 = p.2) ∧
      (l.foldl (exact_pass_step ks) acc).2 =
        ((l.foldl (exact_pass_step ks) acc).1.map Prod.snd) ∧
      (∀ s ∈ l, ∃ p ∈ (l.foldl (exact_pass_step ks) acc).1, p.1 = s) := by
  intro l
  induction l with
  | nil =>
    intro acc h1 h2 _
    exact ⟨fun p hp => hp, h1, h2, by simp⟩
  | cons x xs ih =>
    intro acc h1 h2 hl
    simp only [List.foldl_cons]
    by_cases hg : (ks.contains x && !(acc.2.contains x)) = true
    · have hstep : exact_pass_step ks acc x = (acc.1 ++ [(x, x)], acc.2 ++ [x]) := by
        unfold exact_pass_step
        rw [if_pos hg]
      rw [hstep]
      have h1' : ∀ p ∈ acc.1 ++ [(x, x)], p.1 = p.2 := by
        intro p hp
        rcases List.mem_append.mp hp with hp | hp
        · exact h1 p hp
        · rw [List.mem_singleton] at hp
          rw [hp]
      have h2' : acc.2 ++ [x] = (acc.1 ++ [(x, x)]).map Prod.snd := by
        rw [List.map_append, h2]
        rfl
      obtain ⟨k0, k1, k2, k3⟩ := ih (acc.1 ++ [(x, x)], acc.2 ++ [x]) h1' h2'
        (fun s hs => hl s (List.mem_cons_of_mem x hs))
      refine ⟨?_, k1, k2, ?_⟩
      · intro p hp
        exact k0 p (List.mem_append_left _ hp)
      · intro s hs
        rcases List.mem_cons.mp hs with hs | hs
        · subst hs
          exact ⟨(s, s), k0 (s, s) (List.mem_append_right _ (List.mem_singleton_self _)), rfl⟩
        · exact k3 s hs
    · have hstep : exact_pass_step ks acc x = acc := by
        unfold exact_pass_step
        rw [if_neg hg]
      rw [hstep]
      obtain ⟨k0, k1, k2, k3⟩ := ih acc h1 h2 (fun s hs => hl s (List.mem_cons_of_mem x hs))
      refine ⟨k0, k1, k2, ?_⟩
      intro s hs
      rcases List.mem_cons.mp hs with hs | hs
      · subst hs
        have hks : ks.contains s = true := List.elem_iff.mpr (hl s (List.mem_cons_self s xs))
        have hused : acc.2.contains s = true := by
          rcases Bool.eq_false_or_eq_true (acc.2.contains s) with hu | hu
          · exact hu
          · exfalso
            apply hg
            rw [hks, hu]
            rfl
        have hmem : s ∈ acc.1.map Prod.snd := by
          rw [← h2]
          exact List.elem_iff.mp hused
        rw [List.mem_map] at hmem
        obtain ⟨p, hp, hps⟩ := hmem
        exact ⟨p, k0 p hp, (h1 p hp).trans hps⟩
      · exact k3 s hs

/-- The fuzzy pass is a no-op when every processed key is already paired. -/
theorem fuzzy_pass_noop (ks : List String) :
    ∀ (l : List String) (acc : List (String × String) × List String),
      (∀ s ∈ l, ∃ p ∈ acc.1, p.1 = s) → l.foldl (fuzzy_pass_step ks) acc = acc := by
  intro l
  induction l with
  | nil => intro acc _; rfl
  | cons x xs ih =>
    intro acc h
    simp only [List.foldl_cons]
    have hany : acc.1.any (fun p => p.1 == x) = true := by
      obtain ⟨p, hp, hps⟩ := h x (List.mem_cons_self x xs)
      rw [List.any_eq_true]
      exact ⟨p, hp, by rw [hps]; exact beq_self_eq_true x⟩
    have hstep : fuzzy_pass_step ks acc x = acc := by
      unfold fuzzy_pass_step
      rw [if_pos hany]
    rw [hstep]
    exact ih acc (fun s hs => h s (List.mem_cons_of_mem x hs))

/-- Stable insertion permutes to consing. -/
theorem insert_by_index_perm (ks : List String) (x : String × String) :
    ∀ l : List (String × String), List.Perm (insert_by_index ks x l) (x :: l) := by
  intro l
  induction l with
  | nil => simp [insert_by_index]
  | cons y ys ih =>
    unfold insert_by_index
    split
    · exact ((ih).cons y).trans (List.Perm.swap x y ys)
    · exact List.Perm.refl _

/-- The stable re-sort is a permutation. -/
theorem sort_pairs_perm (ks : List String) (l : List (String × String)) :
    List.Perm (sort_pairs_by_index ks l) l := by
  have main : ∀ (l : List (String × String)) (acc : List (String × String)),
      List.Perm (l.foldl (fun acc x => insert_by_index ks x acc) acc) (acc ++ l) := by
    intro l
    induction l with
    | nil => intro acc; simp
    | cons x xs ih =>
      intro acc
      simp only [List.foldl_cons]
      refine (ih (insert_by_index ks x acc)).trans ?_
      refine (List.Perm.append_right xs (insert_by_index_perm ks x acc)).trans ?_
      exact List.perm_middle.symm
  simpa using main l []

/-- Pairing a header map with itself pairs every key diagonally and leaves
both missing lists empty. -/
theorem pair_columns_self (m : List (String × Nat)) :
    (∀ p ∈ (pair_columns_order_preserving m m).1, p.1 = p.2) ∧
    (pair_columns_order_preserving m m).2.1 = [] ∧
    (pair_columns_order_preserving m m).2.2 = [] := by
  unfold pair_columns_order_preserving
  dsimp only
  obtain ⟨k0, k1, k2, k3⟩ := exact_pass_self (m.map Prod.fst) (m.map Prod.fst) ([], [])
    (by simp) (by simp) (fun s hs => hs)
  rw [fuzzy_pass_noop (m.map Prod.fst) (m.map Prod.fst) _ k3]
  have hperm := sort_pairs_perm (m.map Prod.fst)
    ((m.map Prod.fst).foldl (exact_pass_step (m.map Prod.fst)) ([], [])).1
  refine ⟨?_, ?_, ?_⟩
  · intro p hp
    exact k1 p (hperm.mem_iff.mp hp)
  · rw [List.filter_eq_nil_iff]
    intro s hs
    obtain ⟨p, hp, hps⟩ := k3 s hs
    have : (sort_pairs_by_index (m.map Prod.fst)
        ((m.map Prod.fst).foldl (exact_pass_step (m.map Prod.fst)) ([], [])).1).any
        (fun q => q.1 == s) = true := by
      rw [List.any_eq_true]
      exact ⟨p, hperm.mem_iff.mpr hp, by rw [hps]; exact beq_self_eq_true s⟩
    simp [this]
  · rw [List.filter_eq_nil_iff]
    intro s hs
    obtain ⟨p, hp, hps⟩ := k3 s hs
    have : (sort_pairs_by_index (m.map Prod.fst)
        ((m.map Prod.fst).foldl (exact_pass_step (m.map Prod.fst)) ([], [])).1).any
        (fun q => q.2 == s) = true := by
      rw [List.any_eq_true]
      refine ⟨p, hperm.mem_iff.mpr hp, ?_⟩
      rw [← (k1 p hp), hps]
      exact beq_self_eq_true s
    simp [this]

/-- On identical sheets with identical header maps, a table-pass cell step
adds no issues. -/
theorem table_pair_step_self (cfg : Config) (ws : Sheet) (hsm : List (String × Nat))
    (rh : Option XlValue) (r : Nat) (acc : List (Nat × Nat × Nat) × ScanState)
    (p : String × String) (hp : p.1 = p.2) (h : zero_counts acc.2) :
    zero_counts (table_pair_step cfg ws ws hsm hsm rh r acc p).2 := by
  simp only [table_pair_step]
  by_cases h1 : (is_cell_in_ignored_ranges cfg r (dictGet hsm p.1) &&
      is_cell_in_ignored_ranges cfg r (dictGet hsm p.2)) = true
  · rw [if_pos h1]; exact h
  rw [if_neg h1]
  by_cases h2 : (r, dictGet hsm p.1, dictGet hsm p.2) ∈ acc.1
  · rw [if_pos h2]; exact h
  rw [if_neg h2]
  rw [← hp, compare_cell_self]
  exact h

/-- Diagonal pairs produce no header-mismatch issues. -/
theorem hdr_mismatch_fold_self (t : Rect) (hsm : List (String × Nat)) :
    ∀ (paired : List (String × String)) (st : ScanState),
      (∀ p ∈ paired, p.1 = p.2) →
      paired.foldl (table_hdr_mismatch_step t hsm) st = st := by
  intro paired
  induction paired with
  | nil => intro st _; rfl
  | cons p ps ih =>
    intro st hdiag
    simp only [List.foldl_cons]
    have hstep : table_hdr_mismatch_step t hsm st p = st := by
      unfold table_hdr_mismatch_step
      rw [if_neg]
      intro hne
      exact hne (hdiag p (List.mem_cons_self p ps))
    rw [hstep]
    exact ih st (fun q hq => hdiag q (List.mem_cons_of_mem p hq))

/-- With diagonal pairs and no missing headers, the header-issue block is the
identity. -/
theorem table_header_issues_self (t : Rect) (hsm him : List (String × Nat))
    (paired : List (String × String)) (hdiag : ∀ p ∈ paired, p.1 = p.2)
    (st : ScanState) : table_header_issues t hsm him paired [] [] st = st := by
  unfold table_header_issues
  simp only [List.foldl_nil]
  exact hdr_mismatch_fold_self t hsm paired st hdiag

/-- A table region compared against itself adds no issues. -/
theorem table_step_self (cfg : Config) (ws : Sheet) (st : ScanState) (t : Rect)
    (h : zero_counts st) : zero_counts (table_step cfg ws ws st t) := by
  unfold table_step
  dsimp only
  rw [← header_maps_self ws t]
  obtain ⟨hdiag, hmi, hms⟩ := pair_columns_self (header_maps ws ws t).1
  rw [hmi, hms, table_header_issues_self _ _ _ _ hdiag]
  refine foldl_inv_mem
    (fun acc : List (Nat × Nat × Nat) × ScanState => zero_counts acc.2) _ _ _ ?_ h
  intro acc r _ hz
  unfold table_row_step
  refine foldl_inv_mem
    (fun acc' : List (Nat × Nat × Nat) × ScanState => zero_counts acc'.2) _ _ _ ?_ hz
  intro acc' p hpmem hz'
  exact table_pair_step_self cfg ws _ _ r acc' p (hdiag p hpmem) hz'

/-- A fallback-sweep cell compared against itself adds no issues. -/
theorem fallback_step_self (cfg : Config) (ws : Sheet) (uts : List Rect)
    (st : ScanState) (rc : Nat × Nat) (h : zero_counts st) :
    zero_counts (fallback_step cfg ws ws uts st rc) := by
  simp only [fallback_step]
  by_cases hA : in_union_tables uts rc.1 rc.2 = true
  · rw [if_pos hA]; exact h
  rw [if_neg hA]
  by_cases hB : is_cell_in_ignored_ranges cfg rc.1 rc.2 = true
  · rw [if_pos hB]; exact h
  rw [if_neg hB]
  by_cases hC : ((get_effective_value ws rc.1 rc.2).isNone &&
      (get_effective_value ws rc.1 rc.2).isNone) = true
  · rw [if_pos hC]; exact h
  rw [if_neg hC]
  by_cases hD : canonical_pair_for ws ws rc.1 rc.2 ∈ st.seenPairs
  · rw [if_pos hD]; exact h
  rw [if_neg hD]
  by_cases hE : (!is_top_left_position ws ws rc.1 rc.2) = true
  · rw [if_pos hE]; exact h
  rw [if_neg hE]
  rw [compare_cell_self]
  exact h

/-- A key/value rightward scan over a sheet and itself adds no issues. -/
theorem kv_scan_right_self (cfg : Config) (ws : Sheet) (uts : List Rect)
    (src_is_sample : Bool) (key_text : Option XlValue) (r : Nat) :
    ∀ (ccs : List Nat) (st : ScanState), zero_counts st →
      zero_counts (kv_scan_right cfg ws ws uts src_is_sample key_text r ccs st) := by
  intro ccs
  induction ccs with
  | nil => intro st h; exact h
  | cons cc rest ih =>
    intro st h
    simp only [kv_scan_right]
    by_cases hA : in_union_tables uts r cc = true
    · rw [if_pos hA]; exact h
    rw [if_neg hA]
    by_cases hB : is_cell_in_ignored_ranges cfg r cc = true
    · rw [if_pos hB]; exact ih st h
    rw [if_neg hB]
    by_cases hC : looks_like_key (get_effective_value
        (if src_is_sample then ws else ws) r cc) = true
    · rw [if_pos hC]; exact h
    rw [if_neg hC]
    by_cases hD : canonical_pair_for ws ws r cc ∈ st.seenPairs
    · rw [if_pos hD]; exact ih st h
    rw [if_neg hD]
    by_cases hE : (!is_top_left_position ws ws r cc) = true
    · rw [if_pos hE]; exact ih st h
    rw [if_neg hE]
    by_cases hF : ((get_effective_value (if src_is_sample then ws else ws) r cc).isNone &&
        (get_effective_value (if src_is_sample then ws else ws) r cc).isNone) = true
    · rw [if_pos hF]
      exact ih _ h
    rw [if_neg hF]
    rw [compare_cell_self]
    exact h

/-- A key/value cell step over a sheet and itself adds no issues. -/
theorem kv_cell_step_self (cfg : Config) (ws : Sheet) (uts : List Rect)
    (max_col_union : Nat) (src_is_sample : Bool) (st : ScanState) (rc : Nat × Nat)
    (h : zero_counts st) :
    zero_counts (kv_cell_step cfg ws ws uts max_col_union src_is_sample st rc) := by
  simp only [kv_cell_step]
  by_cases hA : (in_union_tables uts rc.1 rc.2 ||
      decide ((rc.1, rc.2) ∈ st.processedCells)) = true
  · rw [if_pos hA]; exact h
  rw [if_neg hA]
  by_cases hB : (!looks_like_key (get_effective_value
      (if src_is_sample then ws else ws) rc.1 rc.2)) = true
  · rw [if_pos hB]; exact h
  rw [if_neg hB]
  exact kv_scan_right_self cfg ws uts src_is_sample _ rc.1 _ st h

/-- A whole sheet compared against itself reports nothing. -/
theorem runSheet_self (cfg : Config) (ws : Sheet) : zero_counts (runSheet cfg ws ws) := by
  unfold runSheet
  dsimp only
  refine foldl_inv_mem zero_counts _ _ _ ?_ ?_
  · intro st rc _ h
    exact kv_cell_step_self _ _ _ _ _ st rc h
  refine foldl_inv_mem zero_counts _ _ _ ?_ ?_
  · intro st rc _ h
    exact kv_cell_step_self _ _ _ _ _ st rc h
  refine foldl_inv_mem zero_counts _ _ _ ?_ ?_
  · intro st rc _ h
    exact fallback_step_self _ _ _ st rc h
  refine foldl_inv_mem zero_counts _ _ _ ?_ ?_
  · intro st t _ h
    exact table_step_self cfg ws st t h
  exact ⟨rfl, rfl⟩

/-- C2: comparing a workbook against an identical copy of itself yields, for
every sheet, a summary row with issue count zero and ignored-issue count
zero. -/
theorem claim_C2_theorem (wb : Workbook) (cfg : Config) :
    ∀ e ∈ runSummary cfg wb wb, e.issueCount = 0 ∧ e.ignoredCount = 0 := by
  intro e he
  unfold runSummary at he
  dsimp only at he
  rw [List.mem_map] at he
  obtain ⟨name, hname, rfl⟩ := he
  have hmem : name ∈ wb.map Prod.fst := by
    rcases List.mem_append.mp hname with h | h
    · exact h
    · exact (List.mem_filter.mp h).1
  have hcont : (wb.map Prod.fst).contains name = true := List.elem_iff.mpr hmem
  rw [hcont]
  simp only [Bool.not_true, Bool.false_eq_true, if_false]
  exact runSheet_self cfg (wbGet wb name)

/-- C2 witness: a concrete one-sheet workbook against itself: its summary is
exactly one row with zero counts, and the theorem applies to that row. -/
theorem claim_C2_witness :
    runSummary emptyCfg [("Data", wsStatusSample)] [("Data", wsStatusSample)] =
      [⟨"Data", "", 0, 0⟩] ∧
    (⟨"Data", "", 0, 0⟩ : SummaryEntry).issueCount = 0 ∧
    (⟨"Data", "", 0, 0⟩ : SummaryEntry).ignoredCount = 0 :=
  ⟨by decide,
   claim_C2_theorem [("Data", wsStatusSample)] emptyCfg ⟨"Data", "", 0, 0⟩ (by decide)⟩

/-- `any` over the first components matches membership in the mapped list. -/
theorem pairs_any_fst (l : List (String × String)) (s : String) :
    l.any (fun p => p.1 == s) = true ↔ s ∈ l.map Prod.fst := by
  rw [List.any_eq_true]
  constructor
  · rintro ⟨p, hp, hps⟩
    rw [List.mem_map]
    exact ⟨p, hp, by simpa using hps⟩
  · intro h
    rw [List.mem_map] at h
    obtain ⟨p, hp, hps⟩ := h
    exact ⟨p, hp, by simp [hps]⟩

/-- `any` over the second components matches membership in the mapped list. -/
theorem pairs_any_snd (l : List (String × String)) (s : String) :
    l.any (fun p => p.2 == s) = true ↔ s ∈ l.map Prod.snd := by
  rw [List.any_eq_true]
  constructor
  · rintro ⟨p, hp, hps⟩
    rw [List.mem_map]
    exact ⟨p, hp, by simpa using hps⟩
  · intro h
    rw [List.mem_map] at h
    obtain ⟨p, hp, hps⟩ := h
    exact ⟨p, hp, by simp [hps]⟩

/-- A successful fuzzy candidate search returns an unused target header. -/
theorem fuzzy_best_mem (is used : List String) (s : String) :
    ∀ b, (fuzzy_best is used s).1 = some b → b ∈ is ∧ used.contains b = false := by
  unfold fuzzy_best
  refine foldl_inv_mem
    (fun best : Option String × Rat =>
      ∀ b, best.1 = some b → b ∈ is ∧ used.contains b = false) is _ _ ?_ (by simp)
  intro best i hi hbest
  dsimp only
  by_cases hu : used.contains i = true
  · rw [if_pos hu]
    exact hbest
  · rw [if_neg hu]
    split
    · intro b hb
      rw [Option.some_inj] at hb
      subst hb
      exact ⟨hi, Bool.eq_false_iff.mpr hu⟩
    · exact hbest

/-- Invariants of the exact pass: the used set mirrors the (duplicate-free)
target components, and the pairs are diagonal with in-range components. -/
theorem exact_pass_inv (ks is : List String) :
    ∀ (l : List String) (acc : List (String × String) × List String),
      (∀ s ∈ l, s ∈ ks) →
      (acc.1.map Prod.snd).Nodup → acc.2 = acc.1.map Prod.snd →
      (∀ p ∈ acc.1, p.1 = p.2) → (∀ p ∈ acc.1, p.1 ∈ ks ∧ p.2 ∈ is) →
      ((l.foldl (exact_pass_step is) acc).1.map Prod.snd).Nodup ∧
      (l.foldl (exact_pass_step is) acc).2 =
        (l.foldl (exact_pass_step is) acc).1.map Prod.snd ∧
      (∀ p ∈ (l.foldl (exact_pass_step is) acc).1, p.1 = p.2) ∧
      (∀ p ∈ (l.foldl (exact_pass_step is) acc).1, p.1 ∈ ks ∧ p.2 ∈ is) := by
  intro l
  induction l with
  | nil =>
    intro acc _ h1 h2 h3 h4
    exact ⟨h1, h2, h3, h4⟩
  | cons x xs ih =>
    intro acc hl h1 h2 h3 h4
    simp only [List.foldl_cons]
    by_cases hg : (is.contains x && !(acc.2.contains x)) = true
    · have hstep : exact_pass_step is acc x = (acc.1 ++ [(x, x)], acc.2 ++ [x]) := by
        unfold exact_pass_step
        rw [if_pos hg]
      rw [hstep]
      rw [Bool.and_eq_true] at hg
      have hxis : x ∈ is := List.elem_iff.mp hg.1
      have hxnew : x ∉ acc.1.map Prod.snd := by
        intro hx
        rw [← h2] at hx
        have hcx : acc.2.contains x = true := List.elem_iff.mpr hx
        rw [hcx] at hg
        simp at hg
      refine ih (acc.1 ++ [(x, x)], acc.2 ++ [x])
        (fun s hs => hl s (List.mem_cons_of_mem x hs)) ?_ ?_ ?_ ?_
      · dsimp only
        rw [List.map_append, List.nodup_append]
        refine ⟨h1, List.nodup_singleton x, ?_⟩
        intro q hq hq'
        rw [List.map_singleton, List.mem_singleton] at hq'
        subst hq'
        exact hxnew hq
      · dsimp only
        rw [List.map_append, h2]
        rfl
      · intro p hp
        rcases List.mem_append.mp hp with hp | hp
        · exact h3 p hp
        · rw [List.mem_singleton] at hp
          rw [hp]
      · intro p hp
        rcases List.mem_append.mp hp with hp | hp
        · exact h4 p hp
        · rw [List.mem_singleton] at hp
          rw [hp]
          exact ⟨hl x (List.mem_cons_self x xs), hxis⟩
    · have hstep : exact_pass_step is acc x = acc := by
        unfold exact_pass_step
        rw [if_neg hg]
      rw [hstep]
      exact ih acc (fun s hs => hl s (List.mem_cons_of_mem x hs)) h1 h2 h3 h4

/-- Invariants of the fuzzy pass: both mapped component lists stay
duplicate-free, the used set stays in sync, and components stay in range. -/
theorem fuzzy_pass_inv (ks is : List String) :
    ∀ (l : List String) (acc : List (String × String) × List String),
      (∀ s ∈ l, s ∈ ks) →
      (acc.1.map Prod.fst).Nodup → (acc.1.map Prod.snd).Nodup →
      acc.2 = acc.1.map Prod.snd →
      (∀ p ∈ acc.1, p.1 ∈ ks ∧ p.2 ∈ is) →
      ((l.foldl (fuzzy_pass_step is) acc).1.map Prod.fst).Nodup ∧
      ((l.foldl (fuzzy_pass_step is) acc).1.map Prod.snd).Nodup ∧
      (∀ p ∈ (l.foldl (fuzzy_pass_step is) acc).1, p.1 ∈ ks ∧ p.2 ∈ is) := by
  intro l
  induction l with
  | nil =>
    intro acc _ h0 h1 _ h4
    exact ⟨h0, h1, h4⟩
  | cons x xs ih =>
    intro acc hl h0 h1 h2 h4
    simp only [List.foldl_cons]
    by_cases hg : acc.1.any (fun p => p.1 == x) = true
    · have hstep : fuzzy_pass_step is acc x = acc := by
        unfold fuzzy_pass_step
        rw [if_pos hg]
      rw [hstep]
      exact ih acc (fun s hs => hl s (List.mem_cons_of_mem x hs)) h0 h1 h2 h4
    · cases hb : (fuzzy_best is acc.2 x).1 with
      | none =>
        have hstep : fuzzy_pass_step is acc x = acc := by
          unfold fuzzy_pass_step
          rw [if_neg hg, hb]
        rw [hstep]
        exact ih acc (fun s hs => hl s (List.mem_cons_of_mem x hs)) h0 h1 h2 h4
      | some b =>
        have hstep : fuzzy_pass_step is acc x = (acc.1 ++ [(x, b)], acc.2 ++ [b]) := by
          unfold fuzzy_pass_step
          rw [if_neg hg, hb]
        rw [hstep]
        obtain ⟨hbis, hbused⟩ := fuzzy_best_mem is acc.2 x b hb
        have hxnew : x ∉ acc.1.map Prod.fst := by
          intro hx
          exact hg ((pairs_any_fst acc.1 x).mpr hx)
        have hbnew : b ∉ acc.1.map Prod.snd := by
          intro hx
          rw [← h2] at hx
          have hcb : acc.2.contains b = true := List.elem_iff.mpr hx
          rw [hcb] at hbused
          simp at hbused
        refine ih (acc.1 ++ [(x, b)], acc.2 ++ [b])
          (fun s hs => hl s (List.mem_cons_of_mem x hs)) ?_ ?_ ?_ ?_
        · dsimp only
          rw [List.map_append, List.nodup_append]
          refine ⟨h0, List.nodup_singleton x, ?_⟩
          intro q hq hq'
          rw [List.map_singleton, List.mem_singleton] at hq'
          subst hq'
          exact hxnew hq
        · dsimp only
          rw [List.map_append, List.nodup_append]
          refine ⟨h1, List.nodup_singleton b, ?_⟩
          intro q hq hq'
          rw [List.map_singleton, List.mem_singleton] at hq'
          subst hq'
          exact hbnew hq
        · dsimp only
          rw [List.map_append, h2]
          rfl
        · intro p hp
          rcases List.mem_append.mp hp with hp | hp
          · exact h4 p hp
          · rw [List.mem_singleton] at hp
            rw [hp]
            exact ⟨hl x (List.mem_cons_self x xs), hbis⟩

/-- C10: for every pair of input header maps, the paired list mentions each
sample header at most once and each target header at most once, every pair's
components come from the inputs, and each input header lands in exactly one
of: the paired list, or its side's missing list. -/
theorem claim_C10_theorem (sMap iMap : List (String × Nat)) :
    ((pair_columns_order_preserving sMap iMap).1.map Prod.fst).Nodup ∧
    ((pair_columns_order_preserving sMap iMap).1.map Prod.snd).Nodup ∧
    (∀ p ∈ (pair_columns_order_preserving sMap iMap).1,
      p.1 ∈ sMap.map Prod.fst ∧ p.2 ∈ iMap.map Prod.fst) ∧
    (∀ s ∈ sMap.map Prod.fst,
      (s ∈ (pair_columns_order_preserving sMap iMap).1.map Prod.fst ↔
        s ∉ (pair_columns_order_preserving sMap iMap).2.1)) ∧
    (∀ i ∈ iMap.map Prod.fst,
      (i ∈ (pair_columns_order_preserving sMap iMap).1.map Prod.snd ↔
        i ∉ (pair_columns_order_preserving sMap iMap).2.2)) := by
  unfold pair_columns_order_preserving
  dsimp only
  obtain ⟨e1, e2, e3, e4⟩ := exact_pass_inv (sMap.map Prod.fst) (iMap.map Prod.fst)
    (sMap.map Prod.fst) ([], []) (fun s hs => hs) (by simp) (by simp) (by simp) (by simp)
  have e0 : (((sMap.map Prod.fst).foldl (exact_pass_step (iMap.map Prod.fst))
      ([], [])).1.map Prod.fst).Nodup := by
    have : ((sMap.map Prod.fst).foldl (exact_pass_step (iMap.map Prod.fst))
        ([], [])).1.map Prod.fst =
        ((sMap.map Prod.fst).foldl (exact_pass_step (iMap.map Prod.fst))
        ([], [])).1.map Prod.snd := List.map_congr_left e3
    rw [this]
    exact e1
  obtain ⟨f0, f1, f4⟩ := fuzzy_pass_inv (sMap.map Prod.fst) (iMap.map Prod.fst)
    (sMap.map Prod.fst) _ (fun s hs => hs) e0 e1 e2 e4
  have hperm := sort_pairs_perm (sMap.map Prod.fst)
    ((sMap.map Prod.fst).foldl (fuzzy_pass_step (iMap.map Prod.fst))
      ((sMap.map Prod.fst).foldl (exact_pass_step (iMap.map Prod.fst)) ([], []))).1
  have hpermf := hperm.map Prod.fst
  have hperms := hperm.map Prod.snd
  refine ⟨hpermf.nodup_iff.mpr f0, hperms.nodup_iff.mpr f1, ?_, ?_, ?_⟩
  · intro p hp
    exact f4 p (hperm.mem_iff.mp hp)
  · intro s hs
    have hmem_iff : ∀ pl : List (String × String),
        (s ∈ (sMap.map Prod.fst).filter (fun q => !(pl.any (fun p => p.1 == q))) ↔
          pl.any (fun p => p.1 == s) = false) := by
      intro pl
      simp only [List.mem_filter, Bool.not_eq_true']
      exact ⟨fun h => h.2, fun h => ⟨hs, h⟩⟩
    constructor
    · intro hin
      rw [hmem_iff]
      intro hfalse
      rw [(pairs_any_fst _ s).mpr hin] at hfalse
      simp at hfalse
    · intro hnot
      rw [hmem_iff] at hnot
      refine (pairs_any_fst _ s).mp ?_
      cases hany : (sort_pairs_by_index (sMap.map Prod.fst)
          ((sMap.map Prod.fst).foldl (fuzzy_pass_step (iMap.map Prod.fst))
            ((sMap.map Prod.fst).foldl (exact_pass_step (iMap.map Prod.fst)) ([], []))).1).any
          (fun p => p.1 == s) with
      | false => exact absurd hany hnot
      | true => rfl
  · intro i hi
    have hmem_iff : ∀ pl : List (String × String),
        (i ∈ (iMap.map Prod.fst).filter (fun q => !(pl.any (fun p => p.2 == q))) ↔
          pl.any (fun p => p.2 == i) = false) := by
      intro pl
      simp only [List.mem_filter, Bool.not_eq_true']
      exact ⟨fun h => h.2, fun h => ⟨hi, h⟩⟩
    constructor
    · intro hin
      rw [hmem_iff]
      intro hfalse
      rw [(pairs_any_snd _ i).mpr hin] at hfalse
      simp at hfalse
    · intro hnot
      rw [hmem_iff] at hnot
      refine (pairs_any_snd _ i).mp ?_
      cases hany : (sort_pairs_by_index (sMap.map Prod.fst)
          ((sMap.map Prod.fst).foldl (fuzzy_pass_step (iMap.map Prod.fst))
            ((sMap.map Prod.fst).foldl (exact_pass_step (iMap.map Prod.fst)) ([], []))).1).any
          (fun p => p.2 == i) with
      | false => exact absurd hany hnot
      | true => rfl

/-- C10 witness: the partition property applied to concrete header maps in
which "Price" pairs exactly and "Qty"/"Amount" stay unpaired. -/
theorem claim_C10_witness :
    ("Qty" ∈ (pair_columns_order_preserving [("Qty", 2), ("Price", 3)]
        [("Amount", 2), ("Price", 3)]).1.map Prod.fst ↔
      "Qty" ∉ (pair_columns_order_preserving [("Qty", 2), ("Price", 3)]
        [("Amount", 2), ("Price", 3)]).2.1) ∧
    ("Price" ∈ [("Qty", 2), ("Price", 3)].map Prod.fst ∧
      "Price" ∈ [("Amount", 2), ("Price", 3)].map Prod.fst) :=
  ⟨(claim_C10_theorem [("Qty", 2), ("Price", 3)] [("Amount", 2), ("Price", 3)]).2.2.2.1
      "Qty" (by decide),
   (claim_C10_theorem [("Qty", 2), ("Price", 3)] [("Amount", 2), ("Price", 3)]).2.2.1
      ("Price", "Price") (by decide)⟩
